import Mathlib

/-!
Shallow embedding of the ag-grid-state-management repository, centred on the
enhanced grid state manager (`useEnhancedGridStateManager` in
`src/hooks/useGridStateManager.ts`) and the default parser/validator library
(`src/utils/defaultParsersValidators.ts`).

Modelling conventions:
* JavaScript values flowing through record fields are embedded as `Value`
  (null, undefined, number, string, boolean).  Numbers are embedded as `ℚ`
  (exact arithmetic; the IEEE-754 value NaN never arises in the embedded
  fragment because the library parsers convert NaN to null).
* `Map`/`Set` objects are embedded as association lists / lists with the
  insert-or-replace, delete and lookup operations of the source.
* React `dispatch` is embedded as synchronous application of `gridReducer`,
  the standard state-machine reading of reducer code.
* The asynchronous cascade (`processAsyncUpdate`) is embedded as a small-step
  machine: an invocation runs synchronously up to its `await` points (handler
  resolution, `Promise.all` of the dependency cascade), and the environment
  nondeterministically resolves each pending handler with a success value or
  a rejection message.  Actual handler functions are opaque user code, so the
  machine records every real handler invocation in a log and lets the
  resolution steps pick arbitrary results.
-/

namespace AgGrid

/-- Embedded JavaScript value occurring in grid records, parser inputs and
parser/validator outputs. -/
inductive Value where
  | null
  | undef
  | num (q : ℚ)
  | str (s : String)
  | bool (b : Bool)
deriving DecidableEq

/-- Association-list lookup, embedding `Map.prototype.get` (returns the value
for the key, `none` when absent). -/
def mapGet {κ α : Type} [DecidableEq κ] : List (κ × α) → κ → Option α
  | [], _ => none
  | (k0, v) :: rest, k => if k0 = k then some v else mapGet rest k

/-- Association-list insert-or-replace, embedding `Map.prototype.set`. -/
def mapSet {κ α : Type} [DecidableEq κ] : List (κ × α) → κ → α → List (κ × α)
  | [], k, v => [(k, v)]
  | (k0, v0) :: rest, k, v =>
      if k0 = k then (k, v) :: rest else (k0, v0) :: mapSet rest k v

/-- Association-list removal, embedding `Map.prototype.delete`. -/
def mapDel {κ α : Type} [DecidableEq κ] : List (κ × α) → κ → List (κ × α)
  | [], _ => []
  | (k0, v0) :: rest, k =>
      if k0 = k then mapDel rest k else (k0, v0) :: mapDel rest k

/-- Set insertion, embedding `Set.prototype.add`. -/
def setAdd {α : Type} [DecidableEq α] (s : List α) (x : α) : List α :=
  if x ∈ s then s else s ++ [x]

/-- Set removal, embedding `Set.prototype.delete`. -/
def setDel {α : Type} [DecidableEq α] : List α → α → List α
  | [], _ => []
  | y :: rest, x => if y = x then setDel rest x else y :: setDel rest x

/-- One grid row (`GridRowData` in `src/types/grid.ts`): an id plus an open
map of fields.  A field absent from the map reads as JavaScript `undefined`. -/
structure RowData where
  id : String
  fields : List (String × Value)
deriving DecidableEq

/-- Field read on a row: `row[k]`, with `undefined` for an absent key. -/
def getField (r : RowData) (k : String) : Value :=
  (mapGet r.fields k).getD Value.undef

/-- Object-spread update of a row, embedding `{ ...row, ...updates }` from the
`UPDATE_ROW` reducer case (field-by-field overwrite, later keys win). -/
def mergeRow (r : RowData) (updates : List (String × Value)) : RowData :=
  { r with fields := updates.foldl (fun fs p => mapSet fs p.1 p.2) r.fields }

/-- Mode configuration (`ModeConfig` in `src/types/grid.ts`).
`defaultColumnProps` is the optional `Partial<ColumnConfig>` of display
properties; it is embedded as an open property map. -/
structure ModeConfig where
  id : String
  name : String
  columns : List String
  defaultColumnProps : Option (List (String × Value))
deriving DecidableEq

/-- Column configuration (`ColumnConfig` in `src/types/grid.ts`).  The
statically-typed metadata fields are structured; the open display properties
(headerName, editable, ...) are embedded in `props` as a property map.  The
object spread `...config` in `getColumnDefsForMode` contributes `field`
together with these open properties (see `configSpread`). -/
structure ColumnConfig where
  field : String
  modes : Option (List String)
  defaultParser : Option String
  defaultValidator : Option String
  modeSpecificProps : Option (List (String × List (String × Value)))
  props : List (String × Value)
deriving DecidableEq

/-- The grid reducer state (`GridState` in `src/types/grid.ts`, enhanced
variant with `cellErrors`). -/
structure GridState where
  data : List RowData
  loading : List String
  errors : List (String × String)
  cellErrors : List (String × String)
  currentMode : String
  availableModes : List ModeConfig
deriving DecidableEq

/-- Reducer actions (`GridAction` in `src/types/grid.ts`, enhanced variant). -/
inductive GridAction where
  | setData (payload : List RowData)
  | updateRow (id : String) (updates : List (String × Value))
  | setLoading (id : String) (loading : Bool)
  | setError (id : String) (error : Option String)
  | setCellError (rowId columnId : String) (error : Option String)
  | batchUpdate (updates : List (String × List (String × Value)))
  | setMode (payload : String)
  | registerMode (payload : ModeConfig)

/-- The composite key used both for cell errors and for in-flight processing
deduplication: the template literal `rowId-columnId` from the source. -/
def pkey (rowId columnId : String) : String := rowId ++ "-" ++ columnId

/-- Helper for `BATCH_UPDATE`: `findIndex` on id followed by in-place merge
updates the first matching row only. -/
def updateFirstRow : List RowData → String → List (String × Value) → List RowData
  | [], _, _ => []
  | r :: rest, id, u =>
      if r.id = id then mergeRow r u :: rest else r :: updateFirstRow rest id u

/-- The enhanced `gridReducer` (lines 283-361 of
`src/hooks/useGridStateManager.ts`), case by case.  The `SET_ERROR` and
`SET_CELL_ERROR` cases branch on the truthiness of `action.payload.error`
(`if (action.payload.error)`), so both an absent message and the falsy empty
string delete the entry. -/
def gridReducer (state : GridState) (action : GridAction) : GridState :=
  match action with
  | .setData payload =>
      { state with data := payload, loading := [], errors := [], cellErrors := [] }
  | .updateRow id updates =>
      { state with
        data := state.data.map fun row =>
          if row.id = id then mergeRow row updates else row }
  | .setLoading id loading =>
      { state with
        loading := if loading then setAdd state.loading id else setDel state.loading id }
  | .setError id error =>
      { state with
        errors :=
          match error with
          | some e =>
              if e = "" then mapDel state.errors id else mapSet state.errors id e
          | none => mapDel state.errors id }
  | .setCellError rowId columnId error =>
      { state with
        cellErrors :=
          match error with
          | some e =>
              if e = "" then mapDel state.cellErrors (pkey rowId columnId)
              else mapSet state.cellErrors (pkey rowId columnId) e
          | none => mapDel state.cellErrors (pkey rowId columnId) }
  | .batchUpdate updates =>
      { state with
        data := updates.foldl (fun d p => updateFirstRow d p.1 p.2) state.data }
  | .setMode payload =>
      { state with currentMode := payload, loading := [], errors := [], cellErrors := [] }
  | .registerMode payload =>
      { state with
        availableModes :=
          (state.availableModes.filter fun mode => decide (mode.id ≠ payload.id)) ++ [payload] }

/-! Models of the JavaScript builtins used by the default parser/validator
library.  These are not repository code; each is an executable model of the
builtin on the fragment the library exercises, and every claim that depends
on one is evaluated only where the model is exact. -/

/-- Whitespace test for the leading-whitespace skipping of `parseFloat` and
`parseInt` (the common whitespace characters). -/
def isWS (c : Char) : Bool :=
  (c = ' ') || (c = '\t') || (c = '\n') || (c = '\r')

/-- Trims leading and trailing whitespace from a character list. -/
def trimChars (cs : List Char) : List Char :=
  ((cs.dropWhile isWS).reverse.dropWhile isWS).reverse

/-- Models `String.prototype.trim` (on the common whitespace characters). -/
def jsTrim (s : String) : String := String.mk (trimChars s.data)

/-- ASCII lowercasing of one character. -/
def asciiLowerChar (c : Char) : Char :=
  if 'A' ≤ c ∧ c ≤ 'Z' then Char.ofNat (c.toNat + 32) else c

/-- Models `String.prototype.toLowerCase` on the ASCII fragment. -/
def asciiLower (s : String) : String := String.mk (s.data.map asciiLowerChar)

/-- ASCII uppercasing of one character. -/
def asciiUpperChar (c : Char) : Char :=
  if 'a' ≤ c ∧ c ≤ 'z' then Char.ofNat (c.toNat - 32) else c

/-- Models `String.prototype.toUpperCase` on the ASCII fragment. -/
def asciiUpper (s : String) : String := String.mk (s.data.map asciiUpperChar)

/-- Digit-run scanner: accumulated value, number of digits consumed, rest. -/
def takeDigits (acc : Nat) (n : Nat) : List Char → Nat × Nat × List Char
  | [] => (acc, n, [])
  | c :: rest =>
      if c.isDigit then takeDigits (acc * 10 + (c.toNat - 48)) (n + 1) rest
      else (acc, n, c :: rest)

/-- Models `parseFloat` on the sign-and-decimal fragment: leading whitespace,
optional sign, digits with an optional fractional part; `none` models NaN.
Exponent notation and `Infinity` are outside the embedded fragment. -/
def jsParseFloat (s : String) : Option ℚ :=
  let cs := s.data.dropWhile isWS
  let signed : ℚ × List Char :=
    match cs with
    | '-' :: r => (-1, r)
    | '+' :: r => (1, r)
    | _ => (1, cs)
  let ipart := takeDigits 0 0 signed.2
  let fpart :=
    match ipart.2.2 with
    | '.' :: r => takeDigits 0 0 r
    | _ => (0, 0, ipart.2.2)
  if ipart.2.1 + fpart.2.1 = 0 then none
  else some (signed.1 * ((ipart.1 : ℚ) + (fpart.1 : ℚ) / ((10 : ℚ) ^ fpart.2.1)))

/-- Models `parseInt(s, 10)`: leading whitespace, optional sign, then the
longest digit run; `none` models NaN (no digits). -/
def jsParseInt (s : String) : Option Int :=
  let cs := s.data.dropWhile isWS
  let signed : Int × List Char :=
    match cs with
    | '-' :: r => (-1, r)
    | '+' :: r => (1, r)
    | _ => (1, cs)
  let ipart := takeDigits 0 0 signed.2
  if ipart.2.1 = 0 then none else some (signed.1 * (ipart.1 : Int))

/-- Renders a number the way JavaScript string conversion does for integral
values; non-integral rationals are rendered as `num/den` (an approximation of
decimal formatting, never exercised by the claims). -/
def ratToString (q : ℚ) : String :=
  if q.den = 1 then toString q.num else toString q.num ++ "/" ++ toString q.den

/-- Models the `String(value)` conversion. -/
def jsToString : Value → String
  | .null => "null"
  | .undef => "undefined"
  | .num q => ratToString q
  | .str s => s
  | .bool b => if b then "true" else "false"

/-- Models JavaScript truthiness (`Boolean(value)`); NaN never arises in the
embedded fragment. -/
def jsTruthy : Value → Bool
  | .null => false
  | .undef => false
  | .num q => decide (q ≠ 0)
  | .str s => decide (s ≠ "")
  | .bool b => b

/-- Models the `Number(value)` numeric coercion (`none` models NaN): used by
the implicit coercion inside the cross-field validators.  String coercion
requires the whole trimmed string to be a decimal literal. -/
def jsToNumber : Value → Option ℚ
  | .null => some 0
  | .undef => none
  | .num q => some q
  | .bool b => some (if b then 1 else 0)
  | .str s =>
      let t := jsTrim s
      if t = "" then some 0 else
      match jsParseFloat t with
      | some q =>
          -- full-string requirement: reuse the scanner to check no residue
          let cs := t.data
          let signed : List Char :=
            match cs with
            | '-' :: r => r
            | '+' :: r => r
            | _ => cs
          let ipart := takeDigits 0 0 signed
          let rest :=
            match ipart.2.2 with
            | '.' :: r => (takeDigits 0 0 r).2.2
            | other => other
          if rest.isEmpty then some q else none
      | none => none

/-- Models `new Date(value).getTime()` on the numeric-timestamp fragment
(`none` models an invalid date).  Date-string parsing is outside the embedded
fragment; the claims exercise the date validators only at null/undefined. -/
def jsDateGetTime : Value → Option ℚ
  | .num q => some q
  | .bool b => some (if b then 1 else 0)
  | .null => some 0
  | _ => none

/-! The default parser library
(`defaultParsersValidators.parsers` in `src/utils/defaultParsersValidators.ts`).
Each JS parser receives `(value, rowData)` but none reads the row, so the
embedded parsers take the value only. -/

/-- Default parser `string`. -/
def parserString (v : Value) : Value :=
  if v = Value.null ∨ v = Value.undef then .str ""
  else .str (jsTrim (jsToString v))

/-- Default parser `number`. -/
def parserNumber (v : Value) : Value :=
  if v = Value.null ∨ v = Value.undef ∨ v = Value.str "" then .null
  else
    match jsParseFloat (jsToString v) with
    | none => .null
    | some q => .num q

/-- Default parser `integer`. -/
def parserInteger (v : Value) : Value :=
  if v = Value.null ∨ v = Value.undef ∨ v = Value.str "" then .null
  else
    match jsParseInt (jsToString v) with
    | none => .null
    | some n => .num (n : ℚ)

/-- The character strip of the `currency` parser:
`String(value).replace(/[$,€£¥]/g, '').trim()`. -/
def stripCurrency (s : String) : String :=
  jsTrim (String.mk (s.data.filter fun c =>
    !((c = '$') || (c = ',') || (c = '€') || (c = '£') || (c = '¥'))))

/-- Default parser `currency`. -/
def parserCurrency (v : Value) : Value :=
  if v = Value.null ∨ v = Value.undef ∨ v = Value.str "" then .null
  else
    match jsParseFloat (stripCurrency (jsToString v)) with
    | none => .null
    | some q => .num q

/-- Default parser `percentage` (strips `%`, divides by 100). -/
def parserPercentage (v : Value) : Value :=
  if v = Value.null ∨ v = Value.undef ∨ v = Value.str "" then .null
  else
    match jsParseFloat (jsTrim (String.mk ((jsToString v).data.filter fun c => !(c = '%')))) with
    | none => .null
    | some q => .num (q / 100)

/-- Default parser `date`: valid dates are rendered through `dayTag`, an
abstract stand-in for `toISOString().split` day formatting (calendar
arithmetic is outside the embedded fragment; no claim reads this parser). -/
def dayTag (t : ℚ) : String := "epoch-day:" ++ ratToString t

/-- Default parser `date`. -/
def parserDate (v : Value) : Value :=
  if v = Value.null ∨ v = Value.undef ∨ v = Value.str "" then .null
  else
    match jsDateGetTime v with
    | none => .null
    | some t => .str (dayTag t)

/-- Default parser `boolean`. -/
def parserBoolean (v : Value) : Value :=
  match v with
  | .null => .bool false
  | .undef => .bool false
  | .bool b => .bool b
  | _ =>
      let s := asciiLower (jsTrim (jsToString v))
      .bool (s ∈ (["true", "1", "yes", "on", "y"] : List String))

/-- Default parser `sku` (uppercases and trims). -/
def parserSku (v : Value) : Value :=
  if v = Value.null ∨ v = Value.undef then .str ""
  else .str (jsTrim (asciiUpper (jsToString v)))

/-- Default parser `email` (lowercases and trims). -/
def parserEmail (v : Value) : Value :=
  if v = Value.null ∨ v = Value.undef then .str ""
  else .str (jsTrim (asciiLower (jsToString v)))

/-- The named default parser table, in source order. -/
def defaultParsersList : List (String × (Value → Value)) :=
  [("string", parserString),
   ("number", parserNumber),
   ("integer", parserInteger),
   ("currency", parserCurrency),
   ("percentage", parserPercentage),
   ("date", parserDate),
   ("boolean", parserBoolean),
   ("sku", parserSku),
   ("email", parserEmail)]

/-! The default validator library
(`defaultParsersValidators.validators` in `src/utils/defaultParsersValidators.ts`).
Every validator receives `(value, rowData)`; most ignore the row.  The date
validators read the clock (`new Date()`), embedded as an explicit `now`
parameter.  The `minLength`/`maxLength` entries of the source table are
parameterized factories `(n) => (value) => ...`; they are embedded as the
parameterized definitions `validatorMinLength`/`validatorMaxLength` (resolving
them *by name* through the pipeline would apply the factory to the cell value
in JS, degenerate behavior no claim exercises). -/

/-- Shape of an embedded validator: parsed value and row snapshot to an
optional error message (null = valid). -/
abbrev Validator := Value → RowData → Option String

/-- Default validator `required`. -/
def validatorRequired : Validator := fun v _ =>
  if v = Value.null ∨ v = Value.undef ∨ v = Value.str "" then
    some "This field is required"
  else none

/-- Default validator `positiveNumber`. -/
def validatorPositiveNumber : Validator := fun v _ =>
  match v with
  | .null | .undef => none
  | .num q => if q < 0 then some "Must be a positive number" else none
  | _ => some "Must be a valid number"

/-- Default validator `nonNegativeNumber`. -/
def validatorNonNegativeNumber : Validator := fun v _ =>
  match v with
  | .null | .undef => none
  | .num q => if q < 0 then some "Must be zero or positive" else none
  | _ => some "Must be a valid number"

/-- Default validator `price`. -/
def validatorPrice : Validator := fun v _ =>
  match v with
  | .null | .undef => none
  | .num q =>
      if q < 0 then some "Price cannot be negative"
      else if q > 1000000 then some "Price seems unreasonably high"
      else none
  | _ => some "Must be a valid price"

/-- Default validator `quantity`.  `Number.isInteger(value)` is embedded as
the denominator-one test on the exact rational. -/
def validatorQuantity : Validator := fun v _ =>
  match v with
  | .null | .undef => none
  | .num q =>
      if ¬ q.den = 1 then some "Quantity must be a whole number"
      else if q < 0 then some "Quantity cannot be negative"
      else if q > 10000 then some "Quantity seems unreasonably high"
      else none
  | _ => some "Must be a valid number"

/-- Default validator `percentage`. -/
def validatorPercentage : Validator := fun v _ =>
  match v with
  | .null | .undef => none
  | .num q =>
      if q < 0 ∨ q > 1 then some "Percentage must be between 0% and 100%"
      else none
  | _ => some "Must be a valid percentage"

/-- Test for the email regex of the default `email` validator: one `@`, a
nonempty whitespace-free local part, and a domain containing a dot that is
neither its first nor its last character. -/
def jsEmailTest (s : String) : Bool :=
  let cs := s.data
  let local0 := cs.takeWhile fun c => !(c = '@')
  let rest := cs.drop local0.length
  match rest with
  | '@' :: domain =>
      (!local0.isEmpty) && (!domain.contains '@') &&
      (local0.all fun c => !isWS c) && (domain.all fun c => !isWS c) &&
      ((domain.drop 1).dropLast.contains '.')
  | _ => false

/-- Default validator `email` (the factory-free named entry). -/
def validatorEmail : Validator := fun v _ =>
  if v = Value.null ∨ v = Value.undef ∨ v = Value.str "" then none
  else if jsEmailTest (jsToString v) then none
  else some "Must be a valid email address"

/-- Test for the SKU regex `/^[A-Z0-9]{3,20}$/`. -/
def jsSkuTest (s : String) : Bool :=
  (3 ≤ s.data.length && s.data.length ≤ 20) &&
  s.data.all fun c => (('A' ≤ c && c ≤ 'Z') || c.isDigit)

/-- Default validator `sku`. -/
def validatorSku : Validator := fun v _ =>
  if v = Value.null ∨ v = Value.undef ∨ v = Value.str "" then none
  else if jsSkuTest (jsToString v) then none
  else some "SKU must be 3-20 uppercase letters and numbers"

/-- Default validator `futureDate`; `now` embeds the `new Date()` clock
sample. -/
def validatorFutureDate (now : ℚ) : Validator := fun v _ =>
  match v with
  | .null | .undef => none
  | _ =>
      match jsDateGetTime v with
      | none => some "Must be a valid date"
      | some t => if t ≤ now then some "Date must be in the future" else none

/-- Default validator `pastDate`. -/
def validatorPastDate (now : ℚ) : Validator := fun v _ =>
  match v with
  | .null | .undef => none
  | _ =>
      match jsDateGetTime v with
      | none => some "Must be a valid date"
      | some t => if t ≥ now then some "Date must be in the past" else none

/-- Default validator `stockLevel` (cross-field: reads `reorderLevel`).  The
float literal `0.1` is embedded exactly as `1/10`; a NaN coercion of the
sibling field makes the JS comparison false, embedded as the `none` branch. -/
def validatorStockLevel : Validator := fun v row =>
  match v with
  | .null | .undef => none
  | .num q =>
      if q < 0 then some "Stock cannot be negative"
      else
        let raw := getField row "reorderLevel"
        let rl := if jsTruthy raw then raw else .num 0
        match jsToNumber rl with
        | none => none
        | some r => if q < r * (1/10) then some "Stock level is critically low" else none
  | _ => some "Must be a valid stock level"

/-- Default validator `reorderLevel` (cross-field: reads `currentStock`). -/
def validatorReorderLevel : Validator := fun v row =>
  match v with
  | .null | .undef => none
  | .num q =>
      if q < 0 then some "Reorder level cannot be negative"
      else
        let raw := getField row "currentStock"
        let cs := if jsTruthy raw then raw else .num 0
        match jsToNumber cs with
        | none => none
        | some c => if q > c * 2 then some "Reorder level seems too high compared to current stock" else none
  | _ => some "Must be a valid reorder level"

/-- The `minLength` factory applied to its length parameter. -/
def validatorMinLength (n : ℚ) : Validator := fun v _ =>
  match v with
  | .null | .undef => none
  | _ =>
      if ((jsToString v).data.length : ℚ) < n then
        some ("Must be at least " ++ ratToString n ++ " characters")
      else none

/-- The `maxLength` factory applied to its length parameter. -/
def validatorMaxLength (n : ℚ) : Validator := fun v _ =>
  match v with
  | .null | .undef => none
  | _ =>
      if ((jsToString v).data.length : ℚ) > n then
        some ("Must be no more than " ++ ratToString n ++ " characters")
      else none

/-- The named default validator table, in source order (the two factory
entries excepted, see the section comment). -/
def defaultValidatorsTable (now : ℚ) : List (String × Validator) :=
  [("required", validatorRequired),
   ("positiveNumber", validatorPositiveNumber),
   ("nonNegativeNumber", validatorNonNegativeNumber),
   ("price", validatorPrice),
   ("quantity", validatorQuantity),
   ("percentage", validatorPercentage),
   ("email", validatorEmail),
   ("sku", validatorSku),
   ("futureDate", validatorFutureDate now),
   ("pastDate", validatorPastDate now),
   ("stockLevel", validatorStockLevel),
   ("reorderLevel", validatorReorderLevel)]

/-! The registries held in refs by the enhanced manager
(`handlersRef`, `parsersRef`, `validatorsRef`, `columnConfigsRef`).  The
claims under verification never interleave registration with a running
cascade, so the registries are a fixed parameter (`Env`) of the embedded
operations; each registry is an association list keyed the way the source
keys its `Map` (handler/parser/validator by `columnId`, column config by
`field`). -/

/-- Registered async column handler (`AsyncColumnHandler`): activation modes
and declared dependency columns.  The handler function itself is opaque user
code; its invocations are recorded in the machine's log and its results are
supplied nondeterministically by the resolution steps. -/
structure HandlerSpec where
  modes : Option (List String)
  dependencies : Option (List String)
deriving DecidableEq

/-- Registered custom parser (`ColumnParser`): the embedded function returns
`Except`, whose `error` case models a thrown exception with its message. -/
structure CustomParser where
  modes : Option (List String)
  run : Value → RowData → Except String Value

/-- Registered custom validator (`ColumnValidator`). -/
structure CustomValidator where
  modes : Option (List String)
  run : Value → RowData → Option String

/-- The fixed registries plus the clock sample for the date validators. -/
structure Env where
  handlers : List (String × HandlerSpec)
  parsers : List (String × CustomParser)
  validators : List (String × CustomValidator)
  columnConfigs : List (String × ColumnConfig)
  now : ℚ

/-- The activation test `!entry.modes || entry.modes.includes(currentMode)`
used for handlers, parsers and validators. -/
def isActiveIn (modes : Option (List String)) (currentMode : String) : Bool :=
  match modes with
  | none => true
  | some ms => decide (currentMode ∈ ms)

/-- The `activeHandlers` map built at the top of `processAsyncUpdate` and
`getActiveHandlers`: the handler registry filtered by the current mode. -/
def activeHandlers (env : Env) (currentMode : String) : List (String × HandlerSpec) :=
  env.handlers.filter fun p => isActiveIn p.2.modes currentMode

/-- Result record of `parseAndValidate` (`ValidationResult`); `parsedValue`
is `Value.undef` where the source leaves the key absent (the parse-error
return), matching the JS read of a missing key. -/
structure ValidationResult where
  isValid : Bool
  error : Option String
  parsedValue : Value
deriving DecidableEq

/-- Parse step of `parseAndValidate` when no active custom parser applies:
the `else if (columnConfig?.defaultParser)` branch.  The library parsers are
total, so their `try` never throws in the embedded fragment. -/
def defaultParseStep (cc : Option ColumnConfig) (rawValue : Value) : Value :=
  match cc with
  | some c =>
      match c.defaultParser with
      | some name =>
          match mapGet defaultParsersList name with
          | some p => p rawValue
          | none => rawValue
      | none => rawValue
  | none => rawValue

/-- Full parse step of `parseAndValidate` (custom parser first, with its
`try`/`catch` wrapping, else the default parser by name, else identity). -/
def resolveParsed (env : Env) (currentMode columnId : String) (rawValue : Value)
    (rowData : RowData) (cc : Option ColumnConfig) : Except String Value :=
  match mapGet env.parsers columnId with
  | some cp =>
      if isActiveIn cp.modes currentMode then
        match cp.run rawValue rowData with
        | .ok v => .ok v
        | .error e => .error ("Parse error: " ++ e)
      else .ok (defaultParseStep cc rawValue)
  | none => .ok (defaultParseStep cc rawValue)

/-- Validation step of `parseAndValidate` when no active custom validator
applies: the `else if (columnConfig?.defaultValidator)` branch. -/
def defaultValidateStep (now : ℚ) (cc : Option ColumnConfig) (v : Value)
    (rowData : RowData) : Option String :=
  match cc with
  | some c =>
      match c.defaultValidator with
      | some name =>
          match mapGet (defaultValidatorsTable now) name with
          | some vd => vd v rowData
          | none => none
      | none => none
  | none => none

/-- The truthiness test `if (error)` applied to a validator result: a null
return and the falsy empty string both mean "no error". -/
def errTruthy (o : Option String) : Option String :=
  match o with
  | some e => if e = "" then none else some e
  | none => none

/-- Full validation step of `parseAndValidate`.  Each validator result
passes through the source's `if (error)` truthiness check before it can
reject the edit. -/
def resolveValidate (env : Env) (currentMode columnId : String) (v : Value)
    (rowData : RowData) (cc : Option ColumnConfig) : Option String :=
  match mapGet env.validators columnId with
  | some cv =>
      if isActiveIn cv.modes currentMode then errTruthy (cv.run v rowData)
      else errTruthy (defaultValidateStep env.now cc v rowData)
  | none => errTruthy (defaultValidateStep env.now cc v rowData)

/-- `parseAndValidate` (lines 431-482 of `src/hooks/useGridStateManager.ts`):
parse, then validate, reporting the first failure. -/
def parseAndValidate (env : Env) (currentMode columnId : String)
    (rawValue : Value) (rowData : RowData) : ValidationResult :=
  let cc := mapGet env.columnConfigs columnId
  match resolveParsed env currentMode columnId rawValue rowData cc with
  | .error e => { isValid := false, error := some e, parsedValue := .undef }
  | .ok parsedValue =>
      match resolveValidate env currentMode columnId parsedValue rowData cc with
      | some err => { isValid := false, error := some err, parsedValue := parsedValue }
      | none => { isValid := true, error := none, parsedValue := parsedValue }

/-! Derived column definitions (`getColumnDefsForMode`, lines 494-536). -/

/-- Object-spread merge of two property maps: keys of the second override
keys of the first (lookup-equivalent embedding of `{ ...a, ...b }`). -/
def objAssign (a b : List (String × Value)) : List (String × Value) :=
  (a.filter fun p => (mapGet b p.1).isNone) ++ b

/-- The contribution of `...config` to the merged column definition: the
`field` key together with the open display properties.  (The JS spread also
copies the typed metadata keys `modes`/`defaultParser`/`defaultValidator`/
`modeSpecificProps`; those stay in the structured part of the embedding and
are not display properties.) -/
def configSpread (c : ColumnConfig) : List (String × Value) :=
  ("field", Value.str c.field) :: c.props

/-- The two function-valued properties the enhanced manager appends after the
three spread layers (`tooltipValueGetter` and `cellClass`, lines 514-533);
their bodies are rendering logic reading `cellErrors`, embedded as opaque
tags. -/
def errorHookProps : List (String × Value) :=
  [("tooltipValueGetter", Value.str "cellErrorTooltipHook"),
   ("cellClass", Value.str "cellErrorClassHook")]

/-- One merged column definition as the source computes it. -/
structure ColDef where
  field : String
  props : List (String × Value)
deriving DecidableEq

/-- `getColumnDefsForMode` translated from the source: resolve the active
mode config, filter the registered column configs, merge
`{ ...modeDefaults, ...config, ...modeOverrides, tooltip/cellClass hooks }`. -/
def getColumnDefsForMode (env : Env) (st : GridState) : List ColDef :=
  let currentModeConfig := st.availableModes.find? fun m => decide (m.id = st.currentMode)
  let activeColumns :=
    match currentModeConfig with
    | some m => m.columns
    | none => []
  (env.columnConfigs.map Prod.snd).filter
      (fun c =>
        isActiveIn c.modes st.currentMode &&
        (activeColumns.isEmpty || decide (c.field ∈ activeColumns)))
    |>.map fun c =>
      let modeOverrides :=
        match c.modeSpecificProps with
        | some m => (mapGet m st.currentMode).getD []
        | none => []
      let modeDefaults :=
        match currentModeConfig with
        | some m => m.defaultColumnProps.getD []
        | none => []
      { field := c.field
        props :=
          objAssign (objAssign (objAssign modeDefaults (configSpread c)) modeOverrides)
            errorHookProps }

/-- Modelled from the spec, literal reading of the claim: the returned
configs are exactly those whose modes list is absent or contains the current
mode *and whose field is in the active mode's declared column list*, merged
as the three-tier override (no empty-list escape, no appended hooks). -/
def claimColumnDefs (env : Env) (st : GridState) : List ColDef :=
  let currentModeConfig := st.availableModes.find? fun m => decide (m.id = st.currentMode)
  let activeColumns :=
    match currentModeConfig with
    | some m => m.columns
    | none => []
  let modeDefaults :=
    match currentModeConfig with
    | some m => m.defaultColumnProps.getD []
    | none => []
  ((env.columnConfigs.map Prod.snd).filter
      (fun c => isActiveIn c.modes st.currentMode && decide (c.field ∈ activeColumns)))
    |>.map fun c =>
      let modeOverrides :=
        match c.modeSpecificProps with
        | some m => (mapGet m st.currentMode).getD []
        | none => []
      { field := c.field
        props := objAssign (objAssign modeDefaults (configSpread c)) modeOverrides }

/-- Modelled from the spec, amended reading: as the claim states it, except
that the column-list filter is skipped when the active mode's declared list
is empty (in particular when the current mode is unregistered), and the two
error-display hook properties are layered after the three tiers. -/
def specColumnDefsAmended (env : Env) (st : GridState) : List ColDef :=
  let currentModeConfig := st.availableModes.find? fun m => decide (m.id = st.currentMode)
  let activeColumns :=
    match currentModeConfig with
    | some m => m.columns
    | none => []
  let modeDefaults :=
    match currentModeConfig with
    | some m => m.defaultColumnProps.getD []
    | none => []
  ((env.columnConfigs.map Prod.snd).filter
      (fun c =>
        isActiveIn c.modes st.currentMode &&
        (activeColumns.isEmpty || decide (c.field ∈ activeColumns))))
    |>.map fun c =>
      let modeOverrides :=
        match c.modeSpecificProps with
        | some m => (mapGet m st.currentMode).getD []
        | none => []
      { field := c.field
        props :=
          objAssign (objAssign (objAssign modeDefaults (configSpread c)) modeOverrides)
            errorHookProps }

/-! The cascade machine: small-step embedding of `processAsyncUpdate`
(lines 538-606) and `onCellValueChanged` (lines 608-658).

One invocation of `processAsyncUpdate` runs synchronously up to the
`await handler.handler(...)` point; the suspended remainder is a `Task`.
Resolution of the awaited promise is an environment step: `resolveOk` with an
arbitrary partial-update object, or `resolveErr` with the extracted rejection
message (`error.message`, with non-`Error` rejections already collapsed to
"Unknown error" by the source).  On success the dependency cascade's child
invocations start synchronously inside the resolution step and the parent
suspends on `Promise.all`; `joinChildren` is the microtask that resumes the
parent once every spawned child has finished.  The `finally` block runs
inside whichever step reaches it, exactly as the synchronous segments of the
source do. -/

/-- Suspension state of one `processAsyncUpdate` invocation. -/
inductive TaskPhase where
  | awaitingHandler
  | awaitingChildren (children : List Nat)
deriving DecidableEq

/-- One suspended `processAsyncUpdate` invocation.  `modeAtStart` records the
`currentMode` read when the invocation built its `activeHandlers` snapshot
(used again for the dependency filter after resolution, since the registries
are fixed). -/
structure Task where
  rowId : String
  columnId : String
  newValue : Value
  source : Option String
  modeAtStart : String
  phase : TaskPhase
deriving DecidableEq

/-- Log entry for one actual handler invocation: the row snapshot and value
the handler function received. -/
structure Invocation where
  rowId : String
  columnId : String
  row : RowData
  newValue : Value
deriving DecidableEq

/-- Whole-system configuration: reducer state, the `processingRef` set, the
suspended invocations (keyed by a fresh id), and the invocation log. -/
structure Config where
  state : GridState
  processing : List String
  tasks : List (Nat × Task)
  nextId : Nat
  invocations : List Invocation
deriving DecidableEq

/-- The synchronous opening segment of `processAsyncUpdate(rowId, columnId,
newValue, sourceColumnId)`: the in-flight guard, the active-handler lookup,
marking the key, setting loading, clearing the record error, and the
current-row fetch.  A missing row runs the `finally` block at once (the early
`return` inside `try`); otherwise the handler is invoked (logged) and the
invocation suspends.  Returns the new configuration and the spawned task id,
if any. -/
def startInvocation (env : Env) (cfg : Config) (rowId columnId : String)
    (newValue : Value) (src : Option String) : Config × Option Nat :=
  let key := pkey rowId columnId
  if key ∈ cfg.processing then (cfg, none)
  else
    match mapGet (activeHandlers env cfg.state.currentMode) columnId with
    | none => (cfg, none)
    | some _ =>
        let processing := setAdd cfg.processing key
        let st1 := gridReducer cfg.state (.setLoading rowId true)
        let st2 := gridReducer st1 (.setError rowId none)
        match st2.data.find? (fun r => decide (r.id = rowId)) with
        | none =>
            ({ cfg with
                state := gridReducer st2 (.setLoading rowId false)
                processing := setDel processing key }, none)
        | some row =>
            ({ state := st2
               processing := processing
               tasks := cfg.tasks ++
                 [(cfg.nextId,
                   { rowId := rowId, columnId := columnId, newValue := newValue
                     source := src, modeAtStart := cfg.state.currentMode
                     phase := .awaitingHandler })]
               nextId := cfg.nextId + 1
               invocations := cfg.invocations ++
                 [{ rowId := rowId, columnId := columnId, row := row, newValue := newValue }] },
             some cfg.nextId)

/-- The synchronous start of the dependency cascade after a successful
resolution: for each dependency column (already filtered against
`sourceColumnId`), if the parent's active-handler snapshot has a handler for
it and the partial update carries a defined value for it, a child invocation
starts; the ids of the children that actually suspended are collected for
`Promise.all`. -/
def spawnStep (env : Env) (parent : Task) (updates : List (String × Value))
    (dep : String) (cfg : Config) : Config × Option Nat :=
  match mapGet (activeHandlers env parent.modeAtStart) dep with
  | none => (cfg, none)
  | some _ =>
      match mapGet updates dep with
      | none => (cfg, none)
      | some v =>
          if v = Value.undef then (cfg, none)
          else startInvocation env cfg parent.rowId dep v (some parent.columnId)

def spawnChildren (env : Env) (parent : Task) (updates : List (String × Value)) :
    List String → Config → Config × List Nat
  | [], cfg => (cfg, [])
  | dep :: rest, cfg =>
      let this1 := spawnStep env parent updates dep cfg
      let restRes := spawnChildren env parent updates rest this1.1
      (restRes.1, this1.2.toList ++ restRes.2)

/-- The `finally` block plus task retirement: unmark the processing key,
clear the record's loading flag (unconditionally), drop the task. -/
def finishTask (cfg : Config) (tid : Nat) (t : Task) : Config :=
  { cfg with
    state := gridReducer cfg.state (.setLoading t.rowId false)
    processing := setDel cfg.processing (pkey t.rowId t.columnId)
    tasks := cfg.tasks.filter fun p => decide (p.1 ≠ tid) }

/-- Phase update applied to one task-map entry. -/
def phaseUpdate (tid : Nat) (ph : TaskPhase) (p : Nat × Task) : Nat × Task :=
  if p.1 = tid then (p.1, { p.2 with phase := ph }) else p

/-- Phase update of one suspended task. -/
def setTaskPhase (cfg : Config) (tid : Nat) (ph : TaskPhase) : Config :=
  { cfg with tasks := cfg.tasks.map (phaseUpdate tid ph) }

/-- Resolution step: the awaited handler promise of task `tid` fulfils with
the partial update `updates`.  The update is merged (`UPDATE_ROW`), then the
declared dependencies not equal to the invocation's `sourceColumnId` spawn
child cascades; with no `dependencies` field the `finally` block runs in the
same synchronous segment, otherwise the parent suspends on `Promise.all`. -/
def resolveOk (env : Env) (cfg : Config) (tid : Nat)
    (updates : List (String × Value)) : Option Config :=
  match mapGet cfg.tasks tid with
  | some t =>
      match t.phase with
      | .awaitingHandler =>
          let cfg1 := { cfg with state := gridReducer cfg.state (.updateRow t.rowId updates) }
          match mapGet (activeHandlers env t.modeAtStart) t.columnId with
          | none => none
          | some h =>
              match h.dependencies with
              | none => some (finishTask cfg1 tid t)
              | some deps =>
                  let filtered := deps.filter fun d =>
                    match t.source with
                    | some s => decide (d ≠ s)
                    | none => true
                  let spawned := spawnChildren env t updates filtered cfg1
                  some (setTaskPhase spawned.1 tid (.awaitingChildren spawned.2))
      | _ => none
  | none => none

/-- Rejection step: the awaited handler promise of task `tid` rejects and the
`catch` block records `msg` as the record-level error; the `finally` block
runs in the same synchronous segment. -/
def resolveErr (cfg : Config) (tid : Nat) (msg : String) : Option Config :=
  match mapGet cfg.tasks tid with
  | some t =>
      match t.phase with
      | .awaitingHandler =>
          some (finishTask
            { cfg with state := gridReducer cfg.state (.setError t.rowId (some msg)) }
            tid t)
      | _ => none
  | none => none

/-- Join step: once every child spawned for `Promise.all` has finished, the
parent's continuation (the `finally` block) runs. -/
def joinChildren (cfg : Config) (tid : Nat) : Option Config :=
  match mapGet cfg.tasks tid with
  | some t =>
      match t.phase with
      | .awaitingChildren ids =>
          if ids.all (fun i => (mapGet cfg.tasks i).isNone) then
            some (finishTask cfg tid t)
          else none
      | _ => none
  | none => none

/-- `onCellValueChanged` (lines 608-658): the identity short-circuit, the
cell-error clear, parse/validate, either the cell-error set (rejection) or
the synchronous commit of the parsed value followed by the handler dispatch
(whose opening segment runs synchronously). -/
def onCellValueChanged (env : Env) (cfg : Config) (rowObj : RowData)
    (field : String) (newValue oldValue : Value) : Config :=
  if newValue = oldValue then cfg
  else
    let st1 := gridReducer cfg.state (.setCellError rowObj.id field none)
    let vr := parseAndValidate env cfg.state.currentMode field newValue rowObj
    if vr.isValid = false then
      { cfg with state := gridReducer st1 (.setCellError rowObj.id field vr.error) }
    else
      let finalValue := if vr.parsedValue ≠ Value.undef then vr.parsedValue else newValue
      let st2 := gridReducer st1 (.updateRow rowObj.id [(field, finalValue)])
      let cfg2 := { cfg with state := st2 }
      match mapGet env.handlers field with
      | some h =>
          if isActiveIn h.modes cfg.state.currentMode then
            (startInvocation env cfg2 rowObj.id field finalValue none).1
          else cfg2
      | none => cfg2

/-- Internal steps of a running cascade: promise resolutions and joins. -/
inductive CascadeStep (env : Env) : Config → Config → Prop where
  | ok (cfg cfg2 : Config) (tid : Nat) (updates : List (String × Value))
      (h : resolveOk env cfg tid updates = some cfg2) : CascadeStep env cfg cfg2
  | err (cfg cfg2 : Config) (tid : Nat) (msg : String)
      (h : resolveErr cfg tid msg = some cfg2) : CascadeStep env cfg cfg2
  | join (cfg cfg2 : Config) (tid : Nat)
      (h : joinChildren cfg tid = some cfg2) : CascadeStep env cfg cfg2

/-- All system steps: internal cascade steps, direct top-level
`processAsyncUpdate` calls, and grid edit events. -/
inductive SysStep (env : Env) : Config → Config → Prop where
  | cascade (cfg cfg2 : Config) (h : CascadeStep env cfg cfg2) : SysStep env cfg cfg2
  | invoke (cfg : Config) (rowId columnId : String) (v : Value) :
      SysStep env cfg (startInvocation env cfg rowId columnId v none).1
  | edit (cfg : Config) (rowObj : RowData) (field : String) (newValue oldValue : Value) :
      SysStep env cfg (onCellValueChanged env cfg rowObj field newValue oldValue)

/-- Reachability under arbitrary system steps. -/
def Reaches (env : Env) : Config → Config → Prop :=
  Relation.ReflTransGen (SysStep env)

/-- Reachability under internal cascade steps only (no new external edits). -/
def CascadeReaches (env : Env) : Config → Config → Prop :=
  Relation.ReflTransGen (CascadeStep env)

/-! Concrete scenarios used to evaluate the embedded operations. -/

/-- Two independent columns with async handlers and no dependencies. -/
def envPair : Env :=
  { handlers := [("colA", { modes := none, dependencies := none }),
                 ("colB", { modes := none, dependencies := none })]
    parsers := [], validators := [], columnConfigs := [], now := 0 }

/-- A one-row grid state in the default mode. -/
def stOneRow : GridState :=
  { data := [{ id := "r1", fields := [("quantity", Value.num 2)] }]
    loading := [], errors := [], cellErrors := []
    currentMode := "default", availableModes := [] }

/-- Idle configuration over the one-row state. -/
def cfgOneRow : Config :=
  { state := stOneRow, processing := [], tasks := [], nextId := 0, invocations := [] }

/-- After a top-level `processAsyncUpdate("r1", "colA", 1)`. -/
def cfgPairA : Config := (startInvocation envPair cfgOneRow "r1" "colA" (.num 1) none).1

/-- After a further top-level `processAsyncUpdate("r1", "colB", 2)`. -/
def cfgPairB : Config := (startInvocation envPair cfgPairA "r1" "colB" (.num 2) none).1

/-- The suspended colA invocation inside `cfgPairA`/`cfgPairB`. -/
def taskPairA : Task :=
  { rowId := "r1", columnId := "colA", newValue := .num 1, source := none
    modeAtStart := "default", phase := .awaitingHandler }

/-- After the colA handler of `cfgPairB` rejects with "boom" while colB is
still in flight. -/
def cfgPairC : Config := (resolveErr cfgPairB 0 "boom").getD cfgPairB

/-- After the colA handler of `cfgPairB` rejects with the empty message. -/
def cfgPairE : Config := (resolveErr cfgPairB 0 "").getD cfgPairB

/-- One handler-bearing column over a store with a stale record-level error
and no matching row. -/
def envSolo : Env :=
  { handlers := [("colA", { modes := none, dependencies := none })]
    parsers := [], validators := [], columnConfigs := [], now := 0 }

/-- Configuration whose store lacks row r1 but still carries a record-level
error for it. -/
def cfgMissing : Config :=
  { state := { data := [], loading := [], errors := [("r1", "previous failure")]
               cellErrors := [], currentMode := "default", availableModes := [] }
    processing := [], tasks := [], nextId := 0, invocations := [] }

/-- Column config for the spec's quantity scenario: default `quantity`
validator, no parser. -/
def ccQuantity : ColumnConfig :=
  { field := "quantity", modes := none, defaultParser := none
    defaultValidator := some "quantity", modeSpecificProps := none, props := [] }

/-- Environment for the quantity validation scenario. -/
def envQty : Env :=
  { handlers := [], parsers := [], validators := []
    columnConfigs := [("quantity", ccQuantity)], now := 0 }

/-- The edited row of the quantity scenario. -/
def rowQty : RowData := { id := "r1", fields := [("quantity", Value.num 2)] }

/-- Column config for the numeric-parse-to-null scenario: default `number`
parser with the default `positiveNumber` validator. -/
def ccStock : ColumnConfig :=
  { field := "stock", modes := none, defaultParser := some "number"
    defaultValidator := some "positiveNumber", modeSpecificProps := none, props := [] }

/-- Environment for the numeric-parse-to-null scenario. -/
def envStock : Env :=
  { handlers := [], parsers := [], validators := []
    columnConfigs := [("stock", ccStock)], now := 0 }

/-- The edited row of the numeric-parse-to-null scenario. -/
def rowStock : RowData := { id := "r1", fields := [("stock", Value.num 7)] }

/-- Configuration for the numeric-parse-to-null scenario. -/
def cfgStock : Config :=
  { state := { data := [rowStock], loading := [], errors := [], cellErrors := []
               currentMode := "default", availableModes := [] }
    processing := [], tasks := [], nextId := 0, invocations := [] }

/-- A column registration for the column-definition scenarios. -/
def ccDisplay : ColumnConfig :=
  { field := "colX", modes := none, defaultParser := none
    defaultValidator := none, modeSpecificProps := none
    props := [("headerName", Value.str "X")] }

/-- Environment with one registered column config. -/
def envDefs : Env :=
  { handlers := [], parsers := [], validators := []
    columnConfigs := [("colX", ccDisplay)], now := 0 }

/-- A state whose current mode is unregistered (so the active column list
resolves to the empty list). -/
def stNoMode : GridState :=
  { data := [], loading := [], errors := [], cellErrors := []
    currentMode := "someMode", availableModes := [] }

/-- The two-column dependency cycle of the cycle-guard scenario: colA's
handler declares dependency colB and vice versa. -/
def envCycle : Env :=
  { handlers := [("colA", { modes := none, dependencies := some ["colB"] }),
                 ("colB", { modes := none, dependencies := some ["colA"] })]
    parsers := [], validators := [], columnConfigs := [], now := 0 }

/-- The cycle scenario immediately after the single edit to colA. -/
def cfgCycle1 : Config := (startInvocation envCycle cfgOneRow "r1" "colA" (.num 1) none).1

/-- Number of logged handler invocations for a column. -/
def countCol (cfg : Config) (c : String) : Nat :=
  (cfg.invocations.map fun i => if i.columnId = c then 1 else 0).sum

/-- Indicator of a suspended colA invocation still awaiting its handler. -/
def pendAWeight (p : Nat × Task) : Nat :=
  if p.2.columnId = "colA" ∧ p.2.phase = TaskPhase.awaitingHandler then 1 else 0

/-- Number of suspended colA invocations still awaiting their handler. -/
def pendingA (cfg : Config) : Nat :=
  (cfg.tasks.map pendAWeight).sum

/-- Inductive invariant of the cycle scenario: colA's handler ran exactly
once; colB's invocation count plus the pending colA resolutions is at most
one; every suspended task is either the original colA invocation (no source)
or a colB child sourced from colA; task ids are distinct and below the
fresh-id counter. -/
def CycleInv (cfg : Config) : Prop :=
  countCol cfg "colA" = 1 ∧
  countCol cfg "colB" + pendingA cfg ≤ 1 ∧
  (∀ p ∈ cfg.tasks, p.2.rowId = "r1" ∧
    ((p.2.columnId = "colA" ∧ p.2.source = none) ∨
     (p.2.columnId = "colB" ∧ p.2.source = some "colA"))) ∧
  (cfg.tasks.map Prod.fst).Nodup ∧
  (∀ p ∈ cfg.tasks, p.1 < cfg.nextId)

/-- Weight of one suspended task for the cycle termination measure. -/
def cycleWeight (p : Nat × Task) : Nat :=
  match p.2.phase with
  | .awaitingHandler => if p.2.columnId = "colA" then 5 else 2
  | .awaitingChildren _ => 1

/-- Termination measure of the cycle scenario. -/
def cycleMeasure (cfg : Config) : Nat :=
  (cfg.tasks.map cycleWeight).sum

/-- Inductive invariant tying the loading set to the live processing keys:
every loading record has a live invocation; every live invocation holds its
processing key; live processing keys are pairwise distinct, as are task ids;
task ids are below the fresh-id counter. -/
def StrongInv (cfg : Config) : Prop :=
  (∀ r ∈ cfg.state.loading, ∃ p ∈ cfg.tasks, p.2.rowId = r) ∧
  (∀ p ∈ cfg.tasks, pkey p.2.rowId p.2.columnId ∈ cfg.processing) ∧
  (cfg.tasks.map fun p => pkey p.2.rowId p.2.columnId).Nodup ∧
  (cfg.tasks.map Prod.fst).Nodup ∧
  (∀ p ∈ cfg.tasks, p.1 < cfg.nextId)

/-! Basic lemmas about the embedded collection operations. -/

theorem mapGet_mapSet_self {κ α : Type} [DecidableEq κ] (m : List (κ × α)) (k : κ) (v : α) :
    mapGet (mapSet m k v) k = some v := by
  induction m with
  | nil => simp [mapSet, mapGet]
  | cons hd tl ih =>
      by_cases h : hd.1 = k
      · simp [mapSet, mapGet, h]
      · simpa [mapSet, mapGet, h] using ih

theorem mapGet_mem {κ α : Type} [DecidableEq κ] {l : List (κ × α)} {k : κ} {v : α}
    (h : mapGet l k = some v) : (k, v) ∈ l := by
  induction l with
  | nil => simp [mapGet] at h
  | cons hd tl ih =>
      obtain ⟨a, b⟩ := hd
      by_cases hk : a = k
      · rw [show mapGet ((a, b) :: tl) k = some b from by simp [mapGet, hk]] at h
        cases Option.some.inj h
        subst hk
        exact List.mem_cons_self _ _
      · rw [show mapGet ((a, b) :: tl) k = mapGet tl k from by simp [mapGet, hk]] at h
        exact List.mem_cons_of_mem _ (ih h)

theorem mem_setAdd {α : Type} [DecidableEq α] {s : List α} {x y : α} :
    y ∈ setAdd s x ↔ y ∈ s ∨ y = x := by
  unfold setAdd
  by_cases h : x ∈ s
  · simp only [if_pos h]
    constructor
    · exact Or.inl
    · rintro (hy | rfl)
      · exact hy
      · exact h
  · simp [if_neg h]

theorem mem_setDel {α : Type} [DecidableEq α] {s : List α} {x y : α} :
    y ∈ setDel s x ↔ y ∈ s ∧ y ≠ x := by
  induction s with
  | nil => simp [setDel]
  | cons hd tl ih =>
      by_cases h : hd = x
      · rw [show setDel (hd :: tl) x = setDel tl x from by simp [setDel, h]]
        subst h
        rw [ih]
        constructor
        · rintro ⟨hy, hne⟩
          exact ⟨List.mem_cons_of_mem _ hy, hne⟩
        · rintro ⟨hy, hne⟩
          rcases List.mem_cons.mp hy with rfl | hy
          · exact absurd rfl hne
          · exact ⟨hy, hne⟩
      · simp only [setDel, if_neg h, List.mem_cons]
        rw [ih]
        constructor
        · rintro (rfl | ⟨hy, hne⟩)
          · exact ⟨Or.inl rfl, h⟩
          · exact ⟨Or.inr hy, hne⟩
        · rintro ⟨rfl | hy, hne⟩
          · exact Or.inl rfl
          · exact Or.inr ⟨hy, hne⟩

theorem not_mem_setDel_self {α : Type} [DecidableEq α] (s : List α) (x : α) :
    x ∉ setDel s x := fun h => (mem_setDel.mp h).2 rfl

theorem setDel_eq_self {α : Type} [DecidableEq α] {s : List α} {x : α} (h : x ∉ s) :
    setDel s x = s := by
  induction s with
  | nil => rfl
  | cons hd tl ih =>
      have hne : hd ≠ x := fun e => h (e ▸ List.mem_cons_self hd tl)
      have htl : x ∉ tl := fun e => h (List.mem_cons_of_mem hd e)
      simp [setDel, hne, ih htl]

theorem setDel_setAdd_self {α : Type} [DecidableEq α] (s : List α) (x : α) :
    setDel (setAdd s x) x = setDel s x := by
  unfold setAdd
  by_cases h : x ∈ s
  · simp [if_pos h]
  · simp only [if_neg h]
    induction s with
    | nil => simp [setDel]
    | cons hd tl ih =>
        have hne : hd ≠ x := fun e => h (e ▸ List.mem_cons_self hd tl)
        have htl : x ∉ tl := fun e => h (List.mem_cons_of_mem hd e)
        simp [setDel, hne, ih htl]

theorem setDel_setAdd_of_not_mem {α : Type} [DecidableEq α] {s : List α} {x : α}
    (h : x ∉ s) : setDel (setAdd s x) x = s := by
  rw [setDel_setAdd_self, setDel_eq_self h]

theorem getField_mergeRow_self (r : RowData) (k : String) (v : Value) :
    getField (mergeRow r [(k, v)]) k = v := by
  simp [mergeRow, getField, mapGet_mapSet_self]

theorem find?_map_commit {data : List RowData} {id : String} {row : RowData}
    (u : List (String × Value))
    (h : data.find? (fun r => decide (r.id = id)) = some row) :
    (data.map fun r => if r.id = id then mergeRow r u else r).find?
        (fun r => decide (r.id = id)) = some (mergeRow row u) := by
  induction data with
  | nil => simp [List.find?] at h
  | cons hd tl ih =>
      by_cases hid : hd.id = id
      · rw [List.find?_cons_of_pos _ (by simp [hid])] at h
        cases h
        simp only [List.map_cons, if_pos hid]
        exact List.find?_cons_of_pos _ (by simp [mergeRow, hid])
      · rw [List.find?_cons_of_neg _ (by simp [hid])] at h
        simp only [List.map_cons, if_neg hid]
        rw [List.find?_cons_of_neg _ (by simp [hid])]
        exact ih h

theorem mapGet_mapDel_self {κ α : Type} [DecidableEq κ] (m : List (κ × α)) (k : κ) :
    mapGet (mapDel m k) k = none := by
  induction m with
  | nil => rfl
  | cons hd tl ih =>
      obtain ⟨k0, v0⟩ := hd
      by_cases h : k0 = k
      · simpa [mapDel, h] using ih
      · simpa [mapDel, mapGet, h] using ih

theorem mapGet_append {κ α : Type} [DecidableEq κ] (l1 l2 : List (κ × α)) (k : κ) :
    mapGet (l1 ++ l2) k =
      match mapGet l1 k with
      | some v => some v
      | none => mapGet l2 k := by
  induction l1 with
  | nil => simp [mapGet]
  | cons hd tl ih =>
      obtain ⟨k0, v0⟩ := hd
      by_cases h : k0 = k
      · simp [mapGet, h]
      · simpa [mapGet, h] using ih

theorem mapGet_filter_not_in {α : Type} (a b : List (String × α)) (k : String) :
    mapGet (a.filter fun p => (mapGet b p.1).isNone) k =
      if (mapGet b k).isNone then mapGet a k else none := by
  induction a with
  | nil => simp [mapGet]
  | cons hd tl ih =>
      obtain ⟨k0, v0⟩ := hd
      by_cases hk : k0 = k
      · subst hk
        by_cases hb : (mapGet b k0).isNone
        · simp [List.filter_cons, hb, mapGet]
        · simp [List.filter_cons, hb, ih]
      · have hcons : mapGet ((k0, v0) :: tl) k = mapGet tl k := by simp [mapGet, hk]
        by_cases hb : (mapGet b k0).isNone
        · simp [List.filter_cons, hb, mapGet, hk, ih]
        · simp [List.filter_cons, hb, ih, hcons]

theorem mapGet_objAssign (a b : List (String × Value)) (k : String) :
    mapGet (objAssign a b) k =
      match mapGet b k with
      | some v => some v
      | none => mapGet a k := by
  unfold objAssign
  rw [mapGet_append, mapGet_filter_not_in]
  cases hb : mapGet b k with
  | none =>
      simp only [hb, Option.isNone_none, if_true]
      cases mapGet a k <;> rfl
  | some v => simp [hb]

/-! Claim theorems. -/

/-- C7: for every state and every mode id (registered or not), `setMode`
(total, hence never throwing) sets the current mode and, in the same reducer
transition, empties the loading set and both error maps while leaving the
record data (and the registered modes) unchanged. -/
theorem setMode_clears_transient_state (st : GridState) (id : String) :
    gridReducer st (.setMode id) =
      { st with currentMode := id, loading := [], errors := [], cellErrors := [] } := rfl

/-- C2: a `processAsyncUpdate` call whose (record, column) processing key is
already in flight returns at once: the configuration — loading set, error
maps, record data, suspended tasks (no queuing) and the invocation log (the
handler is not called) — is exactly unchanged and no task is spawned. -/
theorem inflight_dedup_noop (env : Env) (cfg : Config) (rowId columnId : String)
    (v : Value) (src : Option String) (h : pkey rowId columnId ∈ cfg.processing) :
    startInvocation env cfg rowId columnId v src = (cfg, none) := by
  unfold startInvocation
  simp [h]

/-- Witness for C2: colA of row r1 is in flight in `cfgPairA`, and a second
edit to the same cell is dropped without any state change. -/
theorem inflight_dedup_noop_witness :
    startInvocation envPair cfgPairA "r1" "colA" (.num 9) none = (cfgPairA, none) :=
  inflight_dedup_noop envPair cfgPairA "r1" "colA" (.num 9) none (by decide)

/-- Counterexample to C6 as stated: a rejection whose extracted message is
the empty string hits the falsy branch of the reducer's
`if (action.payload.error)` check, so the record-level error entry is
deleted rather than set — afterwards the map does not send the record id to
the message. -/
theorem handler_rejection_empty_message :
    resolveErr cfgPairB 0 "" = some cfgPairE ∧
    mapGet cfgPairE.state.errors "r1" = none ∧
    mapGet cfgPairE.state.errors "r1" ≠ some "" := by decide

/-- C6 amended: when the awaited handler promise of a suspended invocation
rejects with message `msg`, the record-level error map afterwards sends the
record id to `msg` provided `msg` is non-empty; an empty message is falsy in
the reducer's truthiness check, so the entry is deleted instead.  In both
cases the record data is untouched (no partial update is merged and the
previously committed base field stays), no cell error changes, no dependency
recursion starts (the invocation log is unchanged and tasks are only
retired), and the processing key is unmarked. -/
theorem handler_rejection_effects (cfg : Config) (tid : Nat) (msg : String) (t : Task)
    (ht : mapGet cfg.tasks tid = some t) (hph : t.phase = TaskPhase.awaitingHandler) :
    ∃ cfg2, resolveErr cfg tid msg = some cfg2 ∧
      (msg ≠ "" → mapGet cfg2.state.errors t.rowId = some msg) ∧
      (msg = "" → mapGet cfg2.state.errors t.rowId = none) ∧
      cfg2.state.data = cfg.state.data ∧
      cfg2.state.cellErrors = cfg.state.cellErrors ∧
      cfg2.invocations = cfg.invocations ∧
      cfg2.tasks = cfg.tasks.filter (fun p => decide (p.1 ≠ tid)) ∧
      pkey t.rowId t.columnId ∉ cfg2.processing := by
  have hstep : resolveErr cfg tid msg =
      some (finishTask
        { cfg with state := gridReducer cfg.state (.setError t.rowId (some msg)) } tid t) := by
    unfold resolveErr
    simp only [ht]
    rw [hph]
  refine ⟨_, hstep, ?_, ?_, ?_, ?_, ?_, ?_, ?_⟩
  · intro hm
    simp [finishTask, gridReducer, hm, mapGet_mapSet_self]
  · intro hm
    simp [finishTask, gridReducer, hm, mapGet_mapDel_self]
  · simp [finishTask, gridReducer]
  · simp [finishTask, gridReducer]
  · simp [finishTask, gridReducer]
  · simp [finishTask, gridReducer]
  · exact fun hmem => not_mem_setDel_self _ _ hmem

/-- Witness for C6 amended: the colA rejection in the two-column scenario
records "boom" for r1 and keeps everything else as described. -/
theorem handler_rejection_effects_witness :
    ∃ cfg2, resolveErr cfgPairB 0 "boom" = some cfg2 ∧
      ("boom" ≠ "" → mapGet cfg2.state.errors taskPairA.rowId = some "boom") ∧
      ("boom" = "" → mapGet cfg2.state.errors taskPairA.rowId = none) ∧
      cfg2.state.data = cfgPairB.state.data ∧
      cfg2.state.cellErrors = cfgPairB.state.cellErrors ∧
      cfg2.invocations = cfgPairB.invocations ∧
      cfg2.tasks = cfgPairB.tasks.filter (fun p => decide (p.1 ≠ 0)) ∧
      pkey taskPairA.rowId taskPairA.columnId ∉ cfg2.processing :=
  handler_rejection_effects cfgPairB 0 "boom" taskPairA (by decide) (by decide)

/-- Counterexample to C8 as stated: a `processAsyncUpdate` call for a record
id absent from the store is not a perfectly silent no-op — the stale
record-level error entry for that id is cleared before the missing row is
detected, so the record-level error map does change. -/
theorem missing_record_not_silent :
    (startInvocation envSolo cfgMissing "r1" "colA" (.num 1) none).1.state.errors ≠
      cfgMissing.state.errors := by decide

/-- C8 amended: for a record id absent from the store (and a key not already
in flight), the call never invokes the handler and leaves record data,
cell-level errors, suspended tasks and the processing set unchanged; with no
active handler for the column it is a complete no-op, while with an active
handler it clears the record-level error entry for the id and removes the id
from the loading set (the `finally` block runs immediately). -/
theorem missing_record_effects (env : Env) (cfg : Config) (rowId columnId : String)
    (v : Value) (src : Option String)
    (hkey : pkey rowId columnId ∉ cfg.processing)
    (hrow : cfg.state.data.find? (fun r => decide (r.id = rowId)) = none) :
    (mapGet (activeHandlers env cfg.state.currentMode) columnId = none →
      startInvocation env cfg rowId columnId v src = (cfg, none)) ∧
    (∀ h, mapGet (activeHandlers env cfg.state.currentMode) columnId = some h →
      startInvocation env cfg rowId columnId v src =
        ({ cfg with
            state := { cfg.state with
              loading := setDel cfg.state.loading rowId
              errors := mapDel cfg.state.errors rowId } }, none)) := by
  constructor
  · intro hnone
    unfold startInvocation
    simp [hkey, hnone]
  · intro h hsome
    unfold startInvocation
    simp only [if_neg hkey, hsome, gridReducer]
    rw [hrow]
    simp [setDel_setAdd_of_not_mem hkey, setDel_setAdd_self]

/-- Witness for C8 amended: at `cfgMissing` (store without r1, stale error
for r1) the call with the registered colA handler clears the stale entry. -/
theorem missing_record_effects_witness :
    startInvocation envSolo cfgMissing "r1" "colA" (.num 1) none =
      ({ cfgMissing with
          state := { cfgMissing.state with
            loading := setDel cfgMissing.state.loading "r1"
            errors := mapDel cfgMissing.state.errors "r1" } }, none) :=
  (missing_record_effects envSolo cfgMissing "r1" "colA" (.num 1) none
    (by decide) (by decide)).2 { modes := none, dependencies := none } (by decide)

theorem errTruthy_ne_empty {o : Option String} {m : String}
    (h : errTruthy o = some m) : m ≠ "" := by
  cases o with
  | none => simp [errTruthy] at h
  | some e =>
      by_cases he : e = ""
      · simp [errTruthy, he] at h
      · simp [errTruthy, he] at h
        subst h
        exact he

theorem resolveValidate_ne_empty {env : Env} {currentMode columnId : String}
    {v : Value} {rowData : RowData} {cc : Option ColumnConfig} {m : String}
    (h : resolveValidate env currentMode columnId v rowData cc = some m) : m ≠ "" := by
  unfold resolveValidate at h
  split at h
  · split at h <;> exact errTruthy_ne_empty h
  · exact errTruthy_ne_empty h

/-- C4: an edit whose active validator (custom-active or default-by-name)
returns message `m` leaves the cell-level error map with `m` at the
(record, column) key, commits nothing (record data unchanged), and dispatches
no async handler (invocation log, tasks, processing set, record-level errors
and loading set unchanged). -/
theorem validation_rejection_effects (env : Env) (cfg : Config) (rowObj : RowData)
    (field : String) (newValue oldValue pv : Value) (m : String)
    (hne : newValue ≠ oldValue)
    (hp : resolveParsed env cfg.state.currentMode field newValue rowObj
      (mapGet env.columnConfigs field) = .ok pv)
    (hv : resolveValidate env cfg.state.currentMode field pv rowObj
      (mapGet env.columnConfigs field) = some m) :
    mapGet (onCellValueChanged env cfg rowObj field newValue oldValue).state.cellErrors
        (pkey rowObj.id field) = some m ∧
    (onCellValueChanged env cfg rowObj field newValue oldValue).state.data =
        cfg.state.data ∧
    (onCellValueChanged env cfg rowObj field newValue oldValue).state.errors =
        cfg.state.errors ∧
    (onCellValueChanged env cfg rowObj field newValue oldValue).state.loading =
        cfg.state.loading ∧
    (onCellValueChanged env cfg rowObj field newValue oldValue).invocations =
        cfg.invocations ∧
    (onCellValueChanged env cfg rowObj field newValue oldValue).tasks = cfg.tasks ∧
    (onCellValueChanged env cfg rowObj field newValue oldValue).processing =
        cfg.processing := by
  have hres : parseAndValidate env cfg.state.currentMode field newValue rowObj =
      { isValid := false, error := some m, parsedValue := pv } := by
    unfold parseAndValidate
    simp only [hp, hv]
  have hm : m ≠ "" := resolveValidate_ne_empty hv
  unfold onCellValueChanged
  rw [if_neg hne, hres]
  simp [gridReducer, mapGet_mapSet_self, hm]

/-- Witness for C4: the spec's quantity scenario — editing quantity to -5
under the default `quantity` validator sets the cell error to the validator's
message and changes nothing else. -/
theorem validation_rejection_effects_witness :
    mapGet (onCellValueChanged envQty cfgOneRow rowQty "quantity"
        (.num (-5)) (.num 2)).state.cellErrors (pkey "r1" "quantity") =
      some "Quantity cannot be negative" ∧
    (onCellValueChanged envQty cfgOneRow rowQty "quantity"
        (.num (-5)) (.num 2)).state.data = cfgOneRow.state.data :=
  ⟨(validation_rejection_effects envQty cfgOneRow rowQty "quantity" (.num (-5)) (.num 2)
      (.num (-5)) "Quantity cannot be negative" (by decide) rfl rfl).1,
   (validation_rejection_effects envQty cfgOneRow rowQty "quantity" (.num (-5)) (.num 2)
      (.num (-5)) "Quantity cannot be negative" (by decide) rfl rfl).2.1⟩

/-- Counterexample to C9 as stated: with the current mode unregistered (so
the active-column list resolves to the empty list) the code skips the
column-list filter and still returns the registered config, while the claim
("field is in the active mode's declared column list") returns nothing. -/
theorem columnDefs_claim_counterexample :
    getColumnDefsForMode envDefs stNoMode ≠ claimColumnDefs envDefs stNoMode := by decide

/-- C9 amended: `getColumnDefsForMode` returns exactly the configs passing
the mode-membership filter and the column-list filter — the latter skipped
whenever the active mode's declared list is empty (in particular for an
unregistered mode) — merged as mode defaults, then the column's own config
properties, then its per-mode overrides, with the two error-display hook
properties layered last; and the object-spread merge resolves lookups with
later-layer precedence. -/
theorem columnDefs_mode_filter_and_merge :
    (∀ env st, getColumnDefsForMode env st = specColumnDefsAmended env st) ∧
    (∀ a b k, mapGet (objAssign a b) k =
      match mapGet b k with
      | some v => some v
      | none => mapGet a k) :=
  ⟨fun _ _ => rfl, mapGet_objAssign⟩

theorem mapGet_filter_of_pred {κ α : Type} [DecidableEq κ] (f : κ × α → Bool) :
    ∀ {l : List (κ × α)} {k : κ} {v : α},
      mapGet l k = some v → f (k, v) = true → mapGet (l.filter f) k = some v := by
  intro l
  induction l with
  | nil => intro k v hh _; simp [mapGet] at hh
  | cons p tl ih =>
      intro k v hh hf
      obtain ⟨k0, h0⟩ := p
      by_cases hk : k0 = k
      · subst hk
        rw [show mapGet ((k0, h0) :: tl) k0 = some h0 from by simp [mapGet]] at hh
        cases Option.some.inj hh
        simp [List.filter_cons, hf, mapGet]
      · rw [show mapGet ((k0, h0) :: tl) k = mapGet tl k from by simp [mapGet, hk]] at hh
        by_cases ha : f (k0, h0)
        · rw [List.filter_cons_of_pos ha]
          rw [show mapGet ((k0, h0) :: tl.filter f) k = mapGet (tl.filter f) k from
            by simp [mapGet, hk]]
          exact ih hh hf
        · rw [List.filter_cons_of_neg (by simpa using ha)]
          exact ih hh hf

theorem mapGet_activeHandlers_of_active {env : Env} {m c : String} {hd : HandlerSpec}
    (hh : mapGet env.handlers c = some hd) (hact : isActiveIn hd.modes m = true) :
    mapGet (activeHandlers env m) c = some hd := by
  unfold activeHandlers
  exact mapGet_filter_of_pred (fun p => isActiveIn p.2.modes m) hh hact

theorem startInvocation_spawns {env : Env} {cfg : Config} {r c : String} {v : Value}
    {s : Option String} {row : RowData} {hd : HandlerSpec}
    (hkey : pkey r c ∉ cfg.processing)
    (hh : mapGet (activeHandlers env cfg.state.currentMode) c = some hd)
    (hrow : cfg.state.data.find? (fun x => decide (x.id = r)) = some row) :
    startInvocation env cfg r c v s =
      ({ state := gridReducer (gridReducer cfg.state (.setLoading r true)) (.setError r none)
         processing := setAdd cfg.processing (pkey r c)
         tasks := cfg.tasks ++
           [(cfg.nextId,
             { rowId := r, columnId := c, newValue := v, source := s
               modeAtStart := cfg.state.currentMode, phase := .awaitingHandler })]
         nextId := cfg.nextId + 1
         invocations := cfg.invocations ++
           [{ rowId := r, columnId := c, row := row, newValue := v }] }, some cfg.nextId) := by
  unfold startInvocation
  simp only [if_neg hkey, hh]
  have hdata : (gridReducer (gridReducer cfg.state (.setLoading r true))
      (.setError r none)).data = cfg.state.data := by
    simp [gridReducer]
  rw [show (gridReducer (gridReducer cfg.state (.setLoading r true))
      (.setError r none)).data.find? (fun x => decide (x.id = r)) = some row from
    hdata ▸ hrow]

theorem startInvocation_data (env : Env) (cfg : Config) (r c : String) (v : Value)
    (s : Option String) :
    (startInvocation env cfg r c v s).1.state.data = cfg.state.data := by
  unfold startInvocation
  by_cases hk : pkey r c ∈ cfg.processing
  · simp [hk]
  · cases hha : mapGet (activeHandlers env cfg.state.currentMode) c with
    | none => simp [if_neg hk, hha]
    | some hd0 =>
        simp only [if_neg hk, hha]
        split <;> simp [gridReducer]

theorem startInvocation_cellErrors (env : Env) (cfg : Config) (r c : String) (v : Value)
    (s : Option String) :
    (startInvocation env cfg r c v s).1.state.cellErrors = cfg.state.cellErrors := by
  unfold startInvocation
  by_cases hk : pkey r c ∈ cfg.processing
  · simp [hk]
  · cases hha : mapGet (activeHandlers env cfg.state.currentMode) c with
    | none => simp [if_neg hk, hha]
    | some hd0 =>
        simp only [if_neg hk, hha]
        split <;> simp [gridReducer]

theorem startInvocation_errors (env : Env) (cfg : Config) (r c : String) (v : Value)
    (s : Option String) :
    (startInvocation env cfg r c v s).1.state.errors = cfg.state.errors ∨
    (startInvocation env cfg r c v s).1.state.errors = mapDel cfg.state.errors r := by
  unfold startInvocation
  by_cases hk : pkey r c ∈ cfg.processing
  · exact Or.inl (by simp [hk])
  · cases hha : mapGet (activeHandlers env cfg.state.currentMode) c with
    | none => exact Or.inl (by simp [if_neg hk, hha])
    | some hd0 =>
        refine Or.inr ?_
        simp only [if_neg hk, hha]
        split <;> simp [gridReducer]

/-- C3: for an edit that passes parsing and validation with parsed value
`pv`, the commit happens before the dispatch: at the instant the async
handler is invoked, the invocation log records a snapshot equal to the
record's current committed row, whose edited field already holds `pv`; and
after the edit that row is still the current committed row. -/
theorem commit_before_dispatch_snapshot (env : Env) (cfg : Config) (rowObj : RowData)
    (field : String) (newValue oldValue pv : Value) (hd : HandlerSpec) (row0 : RowData)
    (hne : newValue ≠ oldValue)
    (hp : resolveParsed env cfg.state.currentMode field newValue rowObj
      (mapGet env.columnConfigs field) = .ok pv)
    (hv : resolveValidate env cfg.state.currentMode field pv rowObj
      (mapGet env.columnConfigs field) = none)
    (hdef : pv ≠ Value.undef)
    (hh : mapGet env.handlers field = some hd)
    (hact : isActiveIn hd.modes cfg.state.currentMode = true)
    (hha : mapGet (activeHandlers env cfg.state.currentMode) field = some hd)
    (hkey : pkey rowObj.id field ∉ cfg.processing)
    (hrow : cfg.state.data.find? (fun r => decide (r.id = rowObj.id)) = some row0) :
    (onCellValueChanged env cfg rowObj field newValue oldValue).invocations =
      cfg.invocations ++
        [{ rowId := rowObj.id, columnId := field
           row := mergeRow row0 [(field, pv)], newValue := pv }] ∧
    getField (mergeRow row0 [(field, pv)]) field = pv ∧
    (onCellValueChanged env cfg rowObj field newValue oldValue).state.data.find?
        (fun r => decide (r.id = rowObj.id)) = some (mergeRow row0 [(field, pv)]) := by
  have hres : parseAndValidate env cfg.state.currentMode field newValue rowObj =
      { isValid := true, error := none, parsedValue := pv } := by
    unfold parseAndValidate
    simp only [hp, hv]
  have hcommit := find?_map_commit [(field, pv)] hrow
  have hstep : onCellValueChanged env cfg rowObj field newValue oldValue =
      (startInvocation env
        { cfg with
            state := gridReducer
              (gridReducer cfg.state (.setCellError rowObj.id field none))
              (.updateRow rowObj.id [(field, pv)]) }
        rowObj.id field pv none).1 := by
    unfold onCellValueChanged
    rw [if_neg hne, hres]
    simp only [hh, if_pos hdef]
    rw [if_neg (by simp), if_pos hact]
  have hkey2 : pkey rowObj.id field ∉
      ({ cfg with
          state := gridReducer
            (gridReducer cfg.state (.setCellError rowObj.id field none))
            (.updateRow rowObj.id [(field, pv)]) } : Config).processing := hkey
  have hha2 : mapGet (activeHandlers env
      ({ cfg with
          state := gridReducer
            (gridReducer cfg.state (.setCellError rowObj.id field none))
            (.updateRow rowObj.id [(field, pv)]) } : Config).state.currentMode) field =
      some hd := by
    simpa [gridReducer] using hha
  have hrow2 : ({ cfg with
      state := gridReducer
        (gridReducer cfg.state (.setCellError rowObj.id field none))
        (.updateRow rowObj.id [(field, pv)]) } : Config).state.data.find?
      (fun r => decide (r.id = rowObj.id)) = some (mergeRow row0 [(field, pv)]) := by
    simpa [gridReducer] using hcommit
  rw [hstep, startInvocation_spawns hkey2 hha2 hrow2]
  refine ⟨rfl, getField_mergeRow_self row0 field pv, ?_⟩
  simpa [gridReducer] using hrow2

/-- Witness for C3: an accepted edit of colA on the one-row grid logs a
handler invocation whose snapshot carries the just-committed value. -/
theorem commit_before_dispatch_snapshot_witness :
    (onCellValueChanged envPair cfgOneRow rowQty "colA" (.num 5) (.num 1)).invocations =
      cfgOneRow.invocations ++
        [{ rowId := "r1", columnId := "colA"
           row := mergeRow { id := "r1", fields := [("quantity", Value.num 2)] }
             [("colA", Value.num 5)], newValue := Value.num 5 }] ∧
    getField (mergeRow { id := "r1", fields := [("quantity", Value.num 2)] }
      [("colA", Value.num 5)]) "colA" = Value.num 5 ∧
    (onCellValueChanged envPair cfgOneRow rowQty "colA" (.num 5) (.num 1)).state.data.find?
        (fun r => decide (r.id = "r1")) =
      some (mergeRow { id := "r1", fields := [("quantity", Value.num 2)] }
        [("colA", Value.num 5)]) :=
  commit_before_dispatch_snapshot envPair cfgOneRow rowQty "colA" (.num 5) (.num 1)
    (.num 5) { modes := none, dependencies := none }
    { id := "r1", fields := [("quantity", Value.num 2)] }
    (by decide) rfl rfl (by decide) (by decide) (by decide) (by decide) (by decide) (by decide)

theorem onCellValueChanged_valid_eq (env : Env) (cfg : Config) (rowObj : RowData)
    (field : String) (newValue oldValue pv : Value)
    (hne : newValue ≠ oldValue)
    (hres : parseAndValidate env cfg.state.currentMode field newValue rowObj =
      { isValid := true, error := none, parsedValue := pv })
    (hdef : pv ≠ Value.undef) :
    onCellValueChanged env cfg rowObj field newValue oldValue =
      (match mapGet env.handlers field with
       | some h =>
          if isActiveIn h.modes cfg.state.currentMode then
            (startInvocation env
              { cfg with
                  state := gridReducer
                    (gridReducer cfg.state (.setCellError rowObj.id field none))
                    (.updateRow rowObj.id [(field, pv)]) }
              rowObj.id field pv none).1
          else
            { cfg with
                state := gridReducer
                  (gridReducer cfg.state (.setCellError rowObj.id field none))
                  (.updateRow rowObj.id [(field, pv)]) }
       | none =>
          { cfg with
              state := gridReducer
                (gridReducer cfg.state (.setCellError rowObj.id field none))
                (.updateRow rowObj.id [(field, pv)]) }) := by
  unfold onCellValueChanged
  rw [if_neg hne, hres]
  rw [if_neg (by simp)]
  simp only [if_pos hdef]

theorem onCellValueChanged_valid_projections (env : Env) (cfg : Config) (rowObj : RowData)
    (field : String) (newValue oldValue pv : Value)
    (hne : newValue ≠ oldValue)
    (hres : parseAndValidate env cfg.state.currentMode field newValue rowObj =
      { isValid := true, error := none, parsedValue := pv })
    (hdef : pv ≠ Value.undef) :
    (onCellValueChanged env cfg rowObj field newValue oldValue).state.data =
      (cfg.state.data.map fun r => if r.id = rowObj.id then mergeRow r [(field, pv)] else r) ∧
    (onCellValueChanged env cfg rowObj field newValue oldValue).state.cellErrors =
      mapDel cfg.state.cellErrors (pkey rowObj.id field) ∧
    ((onCellValueChanged env cfg rowObj field newValue oldValue).state.errors =
        cfg.state.errors ∨
     (onCellValueChanged env cfg rowObj field newValue oldValue).state.errors =
        mapDel cfg.state.errors rowObj.id) := by
  rw [onCellValueChanged_valid_eq env cfg rowObj field newValue oldValue pv hne hres hdef]
  cases hh : mapGet env.handlers field with
  | none => exact ⟨by simp [gridReducer], by simp [gridReducer], Or.inl (by simp [gridReducer])⟩
  | some h =>
      by_cases hact : isActiveIn h.modes cfg.state.currentMode
      · simp only [if_pos hact]
        refine ⟨?_, ?_, ?_⟩
        · rw [startInvocation_data]
          simp [gridReducer]
        · rw [startInvocation_cellErrors]
          simp [gridReducer]
        · rcases startInvocation_errors env _ rowObj.id field pv none with he | he
          · exact Or.inl (by rw [he]; simp [gridReducer])
          · exact Or.inr (by rw [he]; simp [gridReducer])
      · simp only [if_neg hact]
        exact ⟨by simp [gridReducer], by simp [gridReducer], Or.inl (by simp [gridReducer])⟩

/-- C10: every named default validator except `required` maps a null parsed
value to no error (the parameterized length factories included); the default
numeric parsers map non-numeric text (NaN from the numeric conversion) to
null; consequently an edit through a default numeric parser and any default
validator other than `required` parses to null, passes validation, commits
null into the field, and records neither a cell-level nor a record-level
error. -/
theorem null_passes_default_validators :
    (∀ (now : ℚ) (row : RowData), ∀ p ∈ defaultValidatorsTable now,
        p.1 ≠ "required" → p.2 Value.null row = none) ∧
    (∀ (n : ℚ) (row : RowData), validatorMinLength n Value.null row = none ∧
        validatorMaxLength n Value.null row = none) ∧
    (∀ s : String, jsParseFloat s = none → parserNumber (.str s) = .null) ∧
    (∀ s : String, jsParseInt s = none → parserInteger (.str s) = .null) ∧
    (∀ s : String, jsParseFloat (stripCurrency s) = none → parserCurrency (.str s) = .null) ∧
    (∀ (env : Env) (cfg : Config) (rowObj row0 : RowData) (field : String)
        (raw oldValue : Value) (cc : ColumnConfig) (dp dv : String)
        (P : Value → Value) (V : Validator),
      raw ≠ oldValue →
      mapGet env.parsers field = none →
      mapGet env.validators field = none →
      mapGet env.columnConfigs field = some cc →
      cc.defaultParser = some dp →
      mapGet defaultParsersList dp = some P →
      P raw = Value.null →
      cc.defaultValidator = some dv →
      dv ≠ "required" →
      mapGet (defaultValidatorsTable env.now) dv = some V →
      cfg.state.data.find? (fun r => decide (r.id = rowObj.id)) = some row0 →
      parseAndValidate env cfg.state.currentMode field raw rowObj =
        { isValid := true, error := none, parsedValue := Value.null } ∧
      (onCellValueChanged env cfg rowObj field raw oldValue).state.data.find?
          (fun r => decide (r.id = rowObj.id)) =
        some (mergeRow row0 [(field, Value.null)]) ∧
      getField (mergeRow row0 [(field, Value.null)]) field = Value.null ∧
      mapGet (onCellValueChanged env cfg rowObj field raw oldValue).state.cellErrors
          (pkey rowObj.id field) = none ∧
      (mapGet (onCellValueChanged env cfg rowObj field raw oldValue).state.errors
          rowObj.id = none ∨
       mapGet (onCellValueChanged env cfg rowObj field raw oldValue).state.errors
          rowObj.id = mapGet cfg.state.errors rowObj.id)) := by
  have h1 : ∀ (now : ℚ) (row : RowData), ∀ p ∈ defaultValidatorsTable now,
      p.1 ≠ "required" → p.2 Value.null row = none := by
    intro now row p hp hne
    fin_cases hp
    · exact absurd rfl hne
    all_goals rfl
  refine ⟨h1, fun n row => ⟨rfl, rfl⟩, ?_, ?_, ?_, ?_⟩
  · intro s h
    unfold parserNumber
    by_cases hs : s = ""
    · subst hs; rfl
    · rw [if_neg (by simp [hs]), show jsToString (.str s) = s from rfl, h]
  · intro s h
    unfold parserInteger
    by_cases hs : s = ""
    · subst hs; rfl
    · rw [if_neg (by simp [hs]), show jsToString (.str s) = s from rfl, h]
  · intro s h
    unfold parserCurrency
    by_cases hs : s = ""
    · subst hs; rfl
    · rw [if_neg (by simp [hs]), show jsToString (.str s) = s from rfl, h]
  · intro env cfg rowObj row0 field raw oldValue cc dp dv P V
      hne hpn hvn hcc hdp hP hPr hdv hdvne hV hrow
    have hpar : resolveParsed env cfg.state.currentMode field raw rowObj
        (mapGet env.columnConfigs field) = .ok Value.null := by
      unfold resolveParsed defaultParseStep
      simp only [hpn, hcc, hdp, hP, hPr]
    have hvnull : V Value.null rowObj = none :=
      h1 env.now rowObj (dv, V) (mapGet_mem hV) hdvne
    have hval : resolveValidate env cfg.state.currentMode field Value.null rowObj
        (mapGet env.columnConfigs field) = none := by
      unfold resolveValidate defaultValidateStep
      simp only [hvn, hcc, hdv, hV, hvnull, errTruthy]
    have hres : parseAndValidate env cfg.state.currentMode field raw rowObj =
        { isValid := true, error := none, parsedValue := Value.null } := by
      unfold parseAndValidate
      simp only [hpar, hval]
    obtain ⟨hd2, hce2, herr2⟩ := onCellValueChanged_valid_projections env cfg rowObj field
      raw oldValue Value.null hne hres (by decide)
    refine ⟨hres, ?_, getField_mergeRow_self row0 field Value.null, ?_, ?_⟩
    · rw [hd2]
      exact find?_map_commit [(field, Value.null)] hrow
    · rw [hce2]
      exact mapGet_mapDel_self _ _
    · rcases herr2 with he | he
      · exact Or.inr (by rw [he])
      · exact Or.inl (by rw [he]; exact mapGet_mapDel_self _ _)

/-- Witness for C10: editing the stock column (default `number` parser,
default `positiveNumber` validator) to the non-numeric text "abc" commits
null with no error recorded anywhere. -/
theorem null_passes_default_validators_witness :
    parseAndValidate envStock cfgStock.state.currentMode "stock" (.str "abc") rowStock =
      { isValid := true, error := none, parsedValue := Value.null } ∧
    (onCellValueChanged envStock cfgStock rowStock "stock" (.str "abc")
        (.num 7)).state.data.find? (fun r => decide (r.id = rowStock.id)) =
      some (mergeRow rowStock [("stock", Value.null)]) ∧
    getField (mergeRow rowStock [("stock", Value.null)]) "stock" = Value.null ∧
    mapGet (onCellValueChanged envStock cfgStock rowStock "stock" (.str "abc")
        (.num 7)).state.cellErrors (pkey rowStock.id "stock") = none ∧
    (mapGet (onCellValueChanged envStock cfgStock rowStock "stock" (.str "abc")
        (.num 7)).state.errors rowStock.id = none ∨
     mapGet (onCellValueChanged envStock cfgStock rowStock "stock" (.str "abc")
        (.num 7)).state.errors rowStock.id = mapGet cfgStock.state.errors rowStock.id) :=
  null_passes_default_validators.2.2.2.2.2 envStock cfgStock rowStock rowStock "stock"
    (.str "abc") (.num 7) ccStock "number" "positiveNumber" parserNumber
    validatorPositiveNumber (by decide) rfl rfl rfl rfl rfl (by decide) rfl (by decide)
    rfl (by decide)

theorem map_eq_self_of {α : Type} (l : List α) (f : α → α) (h : ∀ p ∈ l, f p = p) :
    l.map f = l := by
  induction l with
  | nil => rfl
  | cons hd tl ih =>
      rw [List.map_cons, h hd (List.mem_cons_self hd tl),
        ih fun p hp => h p (List.mem_cons_of_mem hd hp)]

theorem le_sum_map_of_mem {α : Type} (g : α → Nat) {l : List α} {p : α} (h : p ∈ l) :
    g p ≤ (l.map g).sum := by
  induction l with
  | nil => simp at h
  | cons hd tl ih =>
      rcases List.mem_cons.mp h with rfl | h2
      · simp
      · simpa using Nat.le_add_left (g p) (g hd) |>.trans
          (by simpa using Nat.add_le_add_left (ih h2) (g hd))

theorem sum_map_filter_le {α : Type} (g : α → Nat) (q : α → Bool) (l : List α) :
    ((l.filter q).map g).sum ≤ (l.map g).sum := by
  induction l with
  | nil => simp
  | cons hd tl ih =>
      by_cases hq : q hd
      · rw [List.filter_cons_of_pos hq]
        simpa using Nat.add_le_add_left ih (g hd)
      · rw [List.filter_cons_of_neg (by simpa using hq)]
        simp only [List.map_cons, List.sum_cons]
        exact ih.trans (Nat.le_add_left _ _)

theorem sum_map_filter_ne (g : Nat × Task → Nat) :
    ∀ {tasks : List (Nat × Task)} {tid : Nat} {t : Task},
      (tasks.map Prod.fst).Nodup → (tid, t) ∈ tasks →
      ((tasks.filter fun p => decide (p.1 ≠ tid)).map g).sum + g (tid, t) =
        (tasks.map g).sum := by
  intro tasks
  induction tasks with
  | nil => intro tid t _ hmem; simp at hmem
  | cons hd tl ih =>
      intro tid t hnodup hmem
      have hnd2 := (List.nodup_cons.mp hnodup).2
      have hhd := (List.nodup_cons.mp hnodup).1
      rcases List.mem_cons.mp hmem with rfl | h2
      · rw [List.filter_cons_of_neg (by simp)]
        have hrest : tl.filter (fun p => decide (p.1 ≠ tid)) = tl := by
          apply List.filter_eq_self.mpr
          intro p hp
          simp only [decide_eq_true_eq]
          intro hptid
          have hm : p.1 ∈ tl.map Prod.fst := List.mem_map_of_mem Prod.fst hp
          rw [hptid] at hm
          exact hhd hm
        rw [hrest]
        simp [Nat.add_comm]
      · have hhdne : hd.1 ≠ tid := by
          intro he
          apply hhd
          rw [he]
          exact List.mem_map_of_mem Prod.fst h2
        rw [List.filter_cons_of_pos (by simpa using hhdne)]
        simp only [List.map_cons, List.sum_cons]
        rw [Nat.add_assoc, ih hnd2 h2]

theorem sum_map_update (g : Nat × Task → Nat) (f : Nat × Task → Nat × Task) (tid : Nat)
    (hf : ∀ p, p.1 ≠ tid → f p = p) :
    ∀ {tasks : List (Nat × Task)} {t : Task},
      (tasks.map Prod.fst).Nodup → (tid, t) ∈ tasks →
      ((tasks.map f).map g).sum + g (tid, t) = (tasks.map g).sum + g (f (tid, t)) := by
  intro tasks
  induction tasks with
  | nil => intro t _ hmem; simp at hmem
  | cons hd tl ih =>
      intro t hnodup hmem
      have hnd2 := (List.nodup_cons.mp hnodup).2
      have hhd := (List.nodup_cons.mp hnodup).1
      rcases List.mem_cons.mp hmem with rfl | h2
      · have hrest : tl.map f = tl := by
          apply map_eq_self_of
          intro p hp
          apply hf
          intro hptid
          have hm : p.1 ∈ tl.map Prod.fst := List.mem_map_of_mem Prod.fst hp
          rw [hptid] at hm
          exact hhd hm
        simp only [List.map_cons, List.sum_cons, hrest]
        omega
      · have hhdne : hd.1 ≠ tid := by
          intro he
          apply hhd
          rw [he]
          exact List.mem_map_of_mem Prod.fst h2
        simp only [List.map_cons, List.sum_cons]
        rw [show f hd = hd from hf hd hhdne]
        rw [Nat.add_assoc, ih hnd2 h2]
        omega

theorem startInvocation_task_log (env : Env) (cfg : Config) (r c : String) (v : Value)
    (s : Option String) :
    ((startInvocation env cfg r c v s).1.tasks = cfg.tasks ∧
     (startInvocation env cfg r c v s).1.nextId = cfg.nextId ∧
     (startInvocation env cfg r c v s).1.invocations = cfg.invocations) ∨
    (∃ row, (startInvocation env cfg r c v s).1.tasks =
        cfg.tasks ++
          [(cfg.nextId,
            { rowId := r, columnId := c, newValue := v, source := s
              modeAtStart := cfg.state.currentMode, phase := .awaitingHandler })] ∧
      (startInvocation env cfg r c v s).1.nextId = cfg.nextId + 1 ∧
      (startInvocation env cfg r c v s).1.invocations =
        cfg.invocations ++ [{ rowId := r, columnId := c, row := row, newValue := v }]) := by
  unfold startInvocation
  by_cases hk : pkey r c ∈ cfg.processing
  · exact Or.inl (by simp [hk])
  · cases hha : mapGet (activeHandlers env cfg.state.currentMode) c with
    | none => exact Or.inl (by simp [if_neg hk, hha])
    | some hd0 =>
        simp only [if_neg hk, hha]
        cases hrow : (gridReducer (gridReducer cfg.state (.setLoading r true))
            (.setError r none)).data.find? (fun x => decide (x.id = r)) with
        | none => exact Or.inl (by simp [hrow])
        | some row => exact Or.inr ⟨row, by simp [hrow]⟩

theorem spawnStep_task_log (env : Env) (parent : Task) (updates : List (String × Value))
    (dep : String) (cfg : Config) :
    ((spawnStep env parent updates dep cfg).1.tasks = cfg.tasks ∧
     (spawnStep env parent updates dep cfg).1.nextId = cfg.nextId ∧
     (spawnStep env parent updates dep cfg).1.invocations = cfg.invocations) ∨
    (∃ v row, (spawnStep env parent updates dep cfg).1.tasks =
        cfg.tasks ++
          [(cfg.nextId,
            { rowId := parent.rowId, columnId := dep, newValue := v
              source := some parent.columnId
              modeAtStart := cfg.state.currentMode, phase := .awaitingHandler })] ∧
      (spawnStep env parent updates dep cfg).1.nextId = cfg.nextId + 1 ∧
      (spawnStep env parent updates dep cfg).1.invocations =
        cfg.invocations ++
          [{ rowId := parent.rowId, columnId := dep, row := row, newValue := v }]) := by
  unfold spawnStep
  cases hha : mapGet (activeHandlers env parent.modeAtStart) dep with
  | none => exact Or.inl ⟨rfl, rfl, rfl⟩
  | some hd0 =>
      cases hup : mapGet updates dep with
      | none => exact Or.inl ⟨rfl, rfl, rfl⟩
      | some v =>
          by_cases hv : v = Value.undef
          · exact Or.inl (by simp [hv])
          · simp only [if_neg hv]
            rcases startInvocation_task_log env cfg parent.rowId dep v
              (some parent.columnId) with h | ⟨row, h⟩
            · exact Or.inl h
            · exact Or.inr ⟨v, row, h⟩

theorem strongInv_congr {cfg cfg2 : Config}
    (hl : cfg2.state.loading = cfg.state.loading) (hp : cfg2.processing = cfg.processing)
    (ht : cfg2.tasks = cfg.tasks) (hn : cfg2.nextId = cfg.nextId)
    (h : StrongInv cfg) : StrongInv cfg2 := by
  unfold StrongInv at h ⊢
  rw [hl, hp, ht, hn]
  exact h

theorem startInvocation_strongInv (env : Env) (cfg : Config) (r c : String) (v : Value)
    (s : Option String) (hinv : StrongInv cfg) :
    StrongInv (startInvocation env cfg r c v s).1 := by
  obtain ⟨hA, hB, hC, hD, hE⟩ := hinv
  unfold startInvocation
  by_cases hk : pkey r c ∈ cfg.processing
  · simp only [if_pos hk]
    exact ⟨hA, hB, hC, hD, hE⟩
  · cases hha : mapGet (activeHandlers env cfg.state.currentMode) c with
    | none =>
        simp only [if_neg hk, hha]
        exact ⟨hA, hB, hC, hD, hE⟩
    | some hd0 =>
        simp only [if_neg hk, hha]
        cases hrow : (gridReducer (gridReducer cfg.state (.setLoading r true))
            (.setError r none)).data.find? (fun x => decide (x.id = r)) with
        | none =>
            refine ⟨?_, ?_, ?_, ?_, ?_⟩
            · show ∀ rr ∈ setDel (setAdd cfg.state.loading r) r,
                ∃ p ∈ cfg.tasks, p.2.rowId = rr
              rw [setDel_setAdd_self]
              intro rr hrr
              exact hA rr (mem_setDel.mp hrr).1
            · show ∀ p ∈ cfg.tasks,
                pkey p.2.rowId p.2.columnId ∈ setDel (setAdd cfg.processing (pkey r c)) (pkey r c)
              rw [setDel_setAdd_of_not_mem hk]
              exact hB
            · exact hC
            · exact hD
            · exact hE
        | some row =>
            refine ⟨?_, ?_, ?_, ?_, ?_⟩
            · show ∀ rr ∈ setAdd cfg.state.loading r,
                ∃ p ∈ cfg.tasks ++
                  [(cfg.nextId,
                    ({ rowId := r, columnId := c, newValue := v, source := s
                       modeAtStart := cfg.state.currentMode
                       phase := TaskPhase.awaitingHandler } : Task))], p.2.rowId = rr
              intro rr hrr
              rcases mem_setAdd.mp hrr with h2 | rfl
              · obtain ⟨p, hp, hpr⟩ := hA rr h2
                exact ⟨p, List.mem_append_left _ hp, hpr⟩
              · exact ⟨(cfg.nextId,
                  { rowId := rr, columnId := c, newValue := v, source := s
                    modeAtStart := cfg.state.currentMode, phase := .awaitingHandler }),
                  List.mem_append_right _ (List.mem_singleton.mpr rfl), rfl⟩
            · show ∀ p ∈ cfg.tasks ++
                  [(cfg.nextId,
                    ({ rowId := r, columnId := c, newValue := v, source := s
                       modeAtStart := cfg.state.currentMode
                       phase := TaskPhase.awaitingHandler } : Task))],
                pkey p.2.rowId p.2.columnId ∈ setAdd cfg.processing (pkey r c)
              intro p hp
              rcases List.mem_append.mp hp with h2 | h2
              · exact mem_setAdd.mpr (Or.inl (hB p h2))
              · rw [List.mem_singleton.mp h2]
                exact mem_setAdd.mpr (Or.inr rfl)
            · show ((cfg.tasks ++
                  [(cfg.nextId,
                    ({ rowId := r, columnId := c, newValue := v, source := s
                       modeAtStart := cfg.state.currentMode
                       phase := TaskPhase.awaitingHandler } : Task))]).map
                  fun p => pkey p.2.rowId p.2.columnId).Nodup
              rw [List.map_append, List.nodup_append]
              refine ⟨hC, List.nodup_singleton _, ?_⟩
              intro a ha hb
              rw [List.map_singleton, List.mem_singleton] at hb
              subst hb
              obtain ⟨p, hp, hpk⟩ := List.mem_map.mp ha
              exact hk (hpk ▸ hB p hp)
            · show ((cfg.tasks ++
                  [(cfg.nextId,
                    ({ rowId := r, columnId := c, newValue := v, source := s
                       modeAtStart := cfg.state.currentMode
                       phase := TaskPhase.awaitingHandler } : Task))]).map Prod.fst).Nodup
              rw [List.map_append, List.nodup_append]
              refine ⟨hD, List.nodup_singleton _, ?_⟩
              intro a ha hb
              rw [List.map_singleton, List.mem_singleton] at hb
              subst hb
              obtain ⟨p, hp, hpk⟩ := List.mem_map.mp ha
              exact Nat.lt_irrefl _ (hpk ▸ hE p hp)
            · show ∀ p ∈ cfg.tasks ++
                  [(cfg.nextId,
                    ({ rowId := r, columnId := c, newValue := v, source := s
                       modeAtStart := cfg.state.currentMode
                       phase := TaskPhase.awaitingHandler } : Task))], p.1 < cfg.nextId + 1
              intro p hp
              rcases List.mem_append.mp hp with h2 | h2
              · exact Nat.lt_succ_of_lt (hE p h2)
              · rw [List.mem_singleton.mp h2]
                exact Nat.lt_succ_self _

theorem spawnStep_strongInv (env : Env) (parent : Task) (updates : List (String × Value))
    (dep : String) (cfg : Config) (hinv : StrongInv cfg) :
    StrongInv (spawnStep env parent updates dep cfg).1 := by
  unfold spawnStep
  cases mapGet (activeHandlers env parent.modeAtStart) dep with
  | none => exact hinv
  | some hd0 =>
      cases mapGet updates dep with
      | none => exact hinv
      | some v =>
          by_cases hv : v = Value.undef
          · simpa [hv] using hinv
          · simp only [if_neg hv]
            exact startInvocation_strongInv env cfg parent.rowId dep v
              (some parent.columnId) hinv

theorem spawnChildren_strongInv (env : Env) (parent : Task)
    (updates : List (String × Value)) :
    ∀ (deps : List String) (cfg : Config), StrongInv cfg →
      StrongInv (spawnChildren env parent updates deps cfg).1 := by
  intro deps
  induction deps with
  | nil => intro cfg h; exact h
  | cons d rest ih =>
      intro cfg h
      rw [spawnChildren]
      exact ih _ (spawnStep_strongInv env parent updates d cfg h)

theorem finishTask_strongInv {cfg : Config} {tid : Nat} {t : Task}
    (hmem : (tid, t) ∈ cfg.tasks) (hinv : StrongInv cfg) :
    StrongInv (finishTask cfg tid t) := by
  obtain ⟨hA, hB, hC, hD, hE⟩ := hinv
  have hinj := List.inj_on_of_nodup_map hD
  refine ⟨?_, ?_, ?_, ?_, ?_⟩
  · intro rr hrr
    simp only [finishTask, gridReducer] at hrr ⊢
    have hrr2 := mem_setDel.mp hrr
    obtain ⟨p, hp, hpr⟩ := hA rr hrr2.1
    have hpne : p.1 ≠ tid := by
      intro he
      have : p = (tid, t) := hinj hp hmem (by rw [he])
      exact hrr2.2 (by rw [← hpr, this])
    exact ⟨p, List.mem_filter.mpr ⟨hp, by simpa using hpne⟩, hpr⟩
  · intro p hp
    simp only [finishTask, gridReducer] at hp ⊢
    have hp2 := List.mem_filter.mp hp
    have hpne : p.1 ≠ tid := by simpa using hp2.2
    refine mem_setDel.mpr ⟨hB p hp2.1, ?_⟩
    intro hkeq
    have hkinj := List.inj_on_of_nodup_map hC
    have : p = (tid, t) := hkinj hp2.1 hmem hkeq
    exact hpne (by rw [this])
  · exact hC.sublist ((List.filter_sublist _).map _)
  · exact hD.sublist ((List.filter_sublist _).map _)
  · intro p hp
    exact hE p (List.mem_filter.mp hp).1

theorem phaseUpdate_fst (tid : Nat) (ph : TaskPhase) (p : Nat × Task) :
    (phaseUpdate tid ph p).1 = p.1 := by
  unfold phaseUpdate
  by_cases hcase : p.1 = tid <;> simp [hcase]

theorem phaseUpdate_rowId (tid : Nat) (ph : TaskPhase) (p : Nat × Task) :
    (phaseUpdate tid ph p).2.rowId = p.2.rowId := by
  unfold phaseUpdate
  by_cases hcase : p.1 = tid <;> simp [hcase]

theorem phaseUpdate_columnId (tid : Nat) (ph : TaskPhase) (p : Nat × Task) :
    (phaseUpdate tid ph p).2.columnId = p.2.columnId := by
  unfold phaseUpdate
  by_cases hcase : p.1 = tid <;> simp [hcase]

theorem phaseUpdate_source (tid : Nat) (ph : TaskPhase) (p : Nat × Task) :
    (phaseUpdate tid ph p).2.source = p.2.source := by
  unfold phaseUpdate
  by_cases hcase : p.1 = tid <;> simp [hcase]

theorem phaseUpdate_self (tid : Nat) (ph : TaskPhase) (t : Task) :
    phaseUpdate tid ph (tid, t) = (tid, { t with phase := ph }) := by
  simp [phaseUpdate]

theorem phaseUpdate_ne (tid : Nat) (ph : TaskPhase) {p : Nat × Task} (hp : p.1 ≠ tid) :
    phaseUpdate tid ph p = p := if_neg hp

theorem setTaskPhase_strongInv (cfg : Config) (tid : Nat) (ph : TaskPhase)
    (hinv : StrongInv cfg) : StrongInv (setTaskPhase cfg tid ph) := by
  obtain ⟨hA, hB, hC, hD, hE⟩ := hinv
  refine ⟨?_, ?_, ?_, ?_, ?_⟩
  · intro rr hrr
    simp only [setTaskPhase] at hrr ⊢
    obtain ⟨p, hp, hpr⟩ := hA rr hrr
    exact ⟨phaseUpdate tid ph p, List.mem_map.mpr ⟨p, hp, rfl⟩,
      (phaseUpdate_rowId tid ph p).trans hpr⟩
  · intro p hp
    simp only [setTaskPhase] at hp ⊢
    obtain ⟨q, hq, hqe⟩ := List.mem_map.mp hp
    have := hB q hq
    rw [← hqe, phaseUpdate_rowId, phaseUpdate_columnId]
    exact this
  · simp only [setTaskPhase, List.map_map]
    have : ((fun p : Nat × Task => pkey p.2.rowId p.2.columnId) ∘ phaseUpdate tid ph) =
        fun p : Nat × Task => pkey p.2.rowId p.2.columnId := by
      funext p
      simp [phaseUpdate_rowId, phaseUpdate_columnId]
    rw [this]
    exact hC
  · simp only [setTaskPhase, List.map_map]
    have : (Prod.fst ∘ phaseUpdate tid ph) = (Prod.fst : Nat × Task → Nat) := by
      funext p
      simp [phaseUpdate_fst]
    rw [this]
    exact hD
  · intro p hp
    simp only [setTaskPhase] at hp ⊢
    obtain ⟨q, hq, hqe⟩ := List.mem_map.mp hp
    have := hE q hq
    rw [← hqe, phaseUpdate_fst]
    exact this

theorem resolveOk_strongInv {env : Env} {cfg cfg2 : Config} {tid : Nat}
    {updates : List (String × Value)} (h : resolveOk env cfg tid updates = some cfg2)
    (hinv : StrongInv cfg) : StrongInv cfg2 := by
  unfold resolveOk at h
  cases ht : mapGet cfg.tasks tid with
  | none => rw [ht] at h; cases h
  | some t =>
      simp only [ht] at h
      cases hph : t.phase with
      | awaitingChildren ids => rw [hph] at h; simp at h
      | awaitingHandler =>
          rw [hph] at h
          simp only [] at h
          have hinv1 : StrongInv
              { cfg with state := gridReducer cfg.state (.updateRow t.rowId updates) } :=
            strongInv_congr (by simp [gridReducer]) rfl rfl rfl hinv
          cases hha : mapGet (activeHandlers env t.modeAtStart) t.columnId with
          | none => rw [hha] at h; cases h
          | some hd0 =>
              simp only [hha] at h
              cases hdeps : hd0.dependencies with
              | none =>
                  rw [hdeps] at h
                  cases h
                  exact finishTask_strongInv (mapGet_mem ht) hinv1
              | some deps =>
                  rw [hdeps] at h
                  cases h
                  exact setTaskPhase_strongInv _ tid _
                    (spawnChildren_strongInv env t updates _ _ hinv1)

theorem resolveErr_strongInv {cfg cfg2 : Config} {tid : Nat} {msg : String}
    (h : resolveErr cfg tid msg = some cfg2) (hinv : StrongInv cfg) : StrongInv cfg2 := by
  unfold resolveErr at h
  cases ht : mapGet cfg.tasks tid with
  | none => rw [ht] at h; cases h
  | some t =>
      simp only [ht] at h
      cases hph : t.phase with
      | awaitingChildren ids => rw [hph] at h; simp at h
      | awaitingHandler =>
          rw [hph] at h
          cases h
          exact finishTask_strongInv (mapGet_mem ht)
            (strongInv_congr (by simp [gridReducer]) rfl rfl rfl hinv)

theorem joinChildren_strongInv {cfg cfg2 : Config} {tid : Nat}
    (h : joinChildren cfg tid = some cfg2) (hinv : StrongInv cfg) : StrongInv cfg2 := by
  unfold joinChildren at h
  cases ht : mapGet cfg.tasks tid with
  | none => rw [ht] at h; cases h
  | some t =>
      simp only [ht] at h
      cases hph : t.phase with
      | awaitingHandler => rw [hph] at h; simp at h
      | awaitingChildren ids =>
          simp only [hph] at h
          by_cases hall : ids.all (fun i => (mapGet cfg.tasks i).isNone)
          · rw [if_pos hall] at h
            cases h
            exact finishTask_strongInv (mapGet_mem ht) hinv
          · rw [if_neg hall] at h
            cases h

theorem onCellValueChanged_strongInv (env : Env) (cfg : Config) (rowObj : RowData)
    (field : String) (newValue oldValue : Value) (hinv : StrongInv cfg) :
    StrongInv (onCellValueChanged env cfg rowObj field newValue oldValue) := by
  unfold onCellValueChanged
  by_cases hne : newValue = oldValue
  · simpa [hne] using hinv
  · simp only [if_neg hne]
    by_cases hval : (parseAndValidate env cfg.state.currentMode field newValue rowObj).isValid
        = false
    · simp only [hval, if_pos]
      exact strongInv_congr (by simp [gridReducer]) rfl rfl rfl hinv
    · simp only [hval, if_neg, if_false]
      have hinv2 : StrongInv
          { cfg with
              state := gridReducer
                (gridReducer cfg.state (.setCellError rowObj.id field none))
                (.updateRow rowObj.id
                  [(field,
                    if (parseAndValidate env cfg.state.currentMode field newValue
                        rowObj).parsedValue ≠ Value.undef then
                      (parseAndValidate env cfg.state.currentMode field newValue
                        rowObj).parsedValue
                    else newValue)]) } :=
        strongInv_congr (by simp [gridReducer]) rfl rfl rfl hinv
      cases mapGet env.handlers field with
      | none => exact hinv2
      | some h =>
          by_cases hact : isActiveIn h.modes cfg.state.currentMode
          · simp only [if_pos hact]
            exact startInvocation_strongInv env _ rowObj.id field _ none hinv2
          · simp only [if_neg hact]
            exact hinv2

theorem sysStep_strongInv {env : Env} {cfg cfg2 : Config} (h : SysStep env cfg cfg2)
    (hinv : StrongInv cfg) : StrongInv cfg2 := by
  cases h with
  | cascade _ hc =>
      cases hc with
      | ok tid updates h2 => exact resolveOk_strongInv h2 hinv
      | err tid msg h2 => exact resolveErr_strongInv h2 hinv
      | join tid h2 => exact joinChildren_strongInv h2 hinv
  | invoke rowId columnId v => exact startInvocation_strongInv env cfg rowId columnId v none hinv
  | edit rowObj field newValue oldValue =>
      exact onCellValueChanged_strongInv env cfg rowObj field newValue oldValue hinv

/-- Counterexample to C1 as stated: starting cascades for colA and colB of
record r1 and letting colA's handler settle first reaches a configuration
where the processing key r1-colB is still in flight yet r1 is no longer in
the loading set — the `finally` block clears the loading flag
unconditionally, not "if no other processing keys remain". -/
theorem loading_cleared_while_key_inflight :
    resolveErr cfgPairB 0 "boom" = some cfgPairC ∧
    Reaches envPair cfgOneRow cfgPairC ∧
    pkey "r1" "colB" ∈ cfgPairC.processing ∧
    "r1" ∉ cfgPairC.state.loading := by
  refine ⟨by decide, ?_, by decide, by decide⟩
  have h1 : SysStep envPair cfgOneRow cfgPairA :=
    SysStep.invoke cfgOneRow "r1" "colA" (.num 1)
  have h2 : SysStep envPair cfgPairA cfgPairB :=
    SysStep.invoke cfgPairA "r1" "colB" (.num 2)
  have h3 : SysStep envPair cfgPairB cfgPairC :=
    SysStep.cascade cfgPairB cfgPairC
      (CascadeStep.err cfgPairB cfgPairC 0 "boom" (by decide))
  exact Relation.ReflTransGen.tail
    (Relation.ReflTransGen.tail (Relation.ReflTransGen.tail .refl h1) h2) h3

/-- C1 amended: in every configuration reachable from a well-formed one, if a
record id is in the loading set then at least one processing key for that
record is in flight.  The converse of the claim fails (see the
counterexample): finishing any invocation for a record removes it from the
loading set even while another of its keys is still in flight, so the
loading flag under-approximates, and exactly matches only when at most one
key per record is ever concurrently in flight. -/
theorem loading_tracks_inflight_keys (env : Env) (cfg0 cfg : Config)
    (h0 : StrongInv cfg0) (h : Reaches env cfg0 cfg) :
    ∀ r ∈ cfg.state.loading, ∃ c, pkey r c ∈ cfg.processing := by
  have hinv : StrongInv cfg := by
    induction h with
    | refl => exact h0
    | tail hsteps hstep ih => exact sysStep_strongInv hstep ih
  intro r hr
  obtain ⟨p, hp, hpr⟩ := hinv.1 r hr
  exact ⟨p.2.columnId, hpr ▸ hinv.2.1 p hp⟩

/-- Witness for C1 amended: after the single colA invocation, r1 is loading
and a processing key for it is in flight, as the invariant demands. -/
theorem loading_tracks_inflight_keys_witness :
    ∃ c, pkey "r1" c ∈ cfgPairA.processing :=
  loading_tracks_inflight_keys envPair cfgOneRow cfgPairA
    ⟨fun r hr => absurd hr (List.not_mem_nil r),
     fun p hp => absurd hp (List.not_mem_nil p),
     List.nodup_nil, List.nodup_nil,
     fun p hp => absurd hp (List.not_mem_nil p)⟩
    (Relation.ReflTransGen.single (SysStep.invoke cfgOneRow "r1" "colA" (.num 1)))
    "r1" (by decide)

theorem lookupA_envCycle (m : String) :
    mapGet (activeHandlers envCycle m) "colA" =
      some { modes := none, dependencies := some ["colB"] } := rfl

theorem lookupB_envCycle (m : String) :
    mapGet (activeHandlers envCycle m) "colB" =
      some { modes := none, dependencies := some ["colA"] } := rfl

theorem spawnChildren_singleton (env : Env) (parent : Task)
    (updates : List (String × Value)) (dep : String) (cfg : Config) :
    spawnChildren env parent updates [dep] cfg =
      ((spawnStep env parent updates dep cfg).1,
        (spawnStep env parent updates dep cfg).2.toList) := by
  rw [spawnChildren, spawnChildren]
  simp

theorem countCol_invocations {cfg cfg2 : Config} (h : cfg2.invocations = cfg.invocations)
    (c : String) : countCol cfg2 c = countCol cfg c := by
  unfold countCol
  rw [h]

theorem finishTask_cycleInv {cfg : Config} {tid : Nat} {t : Task} (st2 : GridState)
    (hmem : (tid, t) ∈ cfg.tasks) (hw : 1 ≤ cycleWeight (tid, t)) (hinv : CycleInv cfg) :
    CycleInv (finishTask { cfg with state := st2 } tid t) ∧
    cycleMeasure (finishTask { cfg with state := st2 } tid t) < cycleMeasure cfg := by
  obtain ⟨h1, h2, h3, h4, h5⟩ := hinv
  have hpend := sum_map_filter_ne pendAWeight h4 hmem
  have hmeas := sum_map_filter_ne cycleWeight h4 hmem
  refine ⟨⟨?_, ?_, ?_, ?_, ?_⟩, ?_⟩
  · exact h1
  · show countCol cfg "colB" +
      ((cfg.tasks.filter fun p => decide (p.1 ≠ tid)).map pendAWeight).sum ≤ 1
    unfold pendingA at h2
    omega
  · intro p hp
    exact h3 p (List.mem_filter.mp hp).1
  · exact h4.sublist ((List.filter_sublist _).map _)
  · intro p hp
    exact h5 p (List.mem_filter.mp hp).1
  · show ((cfg.tasks.filter fun p => decide (p.1 ≠ tid)).map cycleWeight).sum <
      cycleMeasure cfg
    unfold cycleMeasure at hmeas ⊢
    omega

theorem noSpawnB_cycleInv (t : Task) (tid : Nat) (C1 : Config) (ph : List Nat)
    (hcB : t.columnId = "colB") (hph : t.phase = TaskPhase.awaitingHandler)
    (hmem : (tid, t) ∈ C1.tasks) (hinv : CycleInv C1) :
    CycleInv (setTaskPhase C1 tid (.awaitingChildren ph)) ∧
    cycleMeasure (setTaskPhase C1 tid (.awaitingChildren ph)) < cycleMeasure C1 := by
  obtain ⟨h1, h2, h3, h4, h5⟩ := hinv
  have hfs : ∀ p : Nat × Task, p.1 ≠ tid →
      phaseUpdate tid (TaskPhase.awaitingChildren ph) p = p :=
    fun p hp => phaseUpdate_ne tid _ hp
  have hupP := sum_map_update pendAWeight (phaseUpdate tid (.awaitingChildren ph)) tid hfs h4 hmem
  have hupM := sum_map_update cycleWeight (phaseUpdate tid (.awaitingChildren ph)) tid hfs h4 hmem
  rw [phaseUpdate_self] at hupP hupM
  have hp1 : pendAWeight (tid, t) = 0 := by simp [pendAWeight, hcB]
  have hp2 : pendAWeight (tid, { t with phase := TaskPhase.awaitingChildren ph }) = 0 := by
    simp [pendAWeight]
  have hw1 : cycleWeight (tid, t) = 2 := by simp [cycleWeight, hph, hcB]
  have hw2 : cycleWeight (tid, { t with phase := TaskPhase.awaitingChildren ph }) = 1 := by
    simp [cycleWeight]
  have hwge : cycleWeight (tid, t) ≤ (C1.tasks.map cycleWeight).sum :=
    le_sum_map_of_mem cycleWeight hmem
  rw [hp1, hp2] at hupP
  rw [hw1, hw2] at hupM
  refine ⟨⟨?_, ?_, ?_, ?_, ?_⟩, ?_⟩
  · exact h1
  · show countCol C1 "colB" +
      ((C1.tasks.map (phaseUpdate tid (.awaitingChildren ph))).map pendAWeight).sum ≤ 1
    unfold pendingA at h2
    omega
  · intro p hp
    obtain ⟨q, hq, hqe⟩ := List.mem_map.mp hp
    obtain ⟨hqr, hqs⟩ := h3 q hq
    rw [← hqe, phaseUpdate_rowId, phaseUpdate_columnId, phaseUpdate_source]
    exact ⟨hqr, hqs⟩
  · show ((C1.tasks.map (phaseUpdate tid (.awaitingChildren ph))).map Prod.fst).Nodup
    rw [List.map_map]
    have : (Prod.fst ∘ phaseUpdate tid (TaskPhase.awaitingChildren ph)) =
        (Prod.fst : Nat × Task → Nat) := by
      funext p
      simp [phaseUpdate_fst]
    rw [this]
    exact h4
  · intro p hp
    obtain ⟨q, hq, hqe⟩ := List.mem_map.mp hp
    have := h5 q hq
    rw [← hqe, phaseUpdate_fst]
    exact this
  · show ((C1.tasks.map (phaseUpdate tid (.awaitingChildren ph))).map cycleWeight).sum <
      cycleMeasure C1
    unfold cycleMeasure
    omega

theorem spawnA_cycleInv (t : Task) (tid : Nat) (updates : List (String × Value))
    (C1 : Config) (ph : List Nat)
    (hrow1 : t.rowId = "r1") (hcA : t.columnId = "colA")
    (hph : t.phase = TaskPhase.awaitingHandler)
    (hmem : (tid, t) ∈ C1.tasks) (hinv : CycleInv C1) :
    CycleInv (setTaskPhase (spawnStep envCycle t updates "colB" C1).1 tid
      (.awaitingChildren ph)) ∧
    cycleMeasure (setTaskPhase (spawnStep envCycle t updates "colB" C1).1 tid
      (.awaitingChildren ph)) < cycleMeasure C1 := by
  obtain ⟨h1, h2, h3, h4, h5⟩ := hinv
  have hfs : ∀ p : Nat × Task, p.1 ≠ tid →
      phaseUpdate tid (TaskPhase.awaitingChildren ph) p = p :=
    fun p hp => phaseUpdate_ne tid _ hp
  have hp1 : pendAWeight (tid, t) = 1 := by simp [pendAWeight, hcA, hph]
  have hp2 : pendAWeight (tid, { t with phase := TaskPhase.awaitingChildren ph }) = 0 := by
    simp [pendAWeight]
  have hw1 : cycleWeight (tid, t) = 5 := by simp [cycleWeight, hph, hcA]
  have hw2 : cycleWeight (tid, { t with phase := TaskPhase.awaitingChildren ph }) = 1 := by
    simp [cycleWeight]
  have hcompFst : (Prod.fst ∘ phaseUpdate tid (TaskPhase.awaitingChildren ph)) =
      (Prod.fst : Nat × Task → Nat) := by
    funext p
    simp [phaseUpdate_fst]
  rcases spawnStep_task_log envCycle t updates "colB" C1 with ⟨hT, hN, hI⟩ |
    ⟨v, row, hT, hN, hI⟩
  · -- the dependency cascade spawned nothing
    have hupP := sum_map_update pendAWeight (phaseUpdate tid (.awaitingChildren ph)) tid
      hfs h4 hmem
    have hupM := sum_map_update cycleWeight (phaseUpdate tid (.awaitingChildren ph)) tid
      hfs h4 hmem
    rw [phaseUpdate_self] at hupP hupM
    rw [hp1, hp2] at hupP
    rw [hw1, hw2] at hupM
    have hwge : cycleWeight (tid, t) ≤ (C1.tasks.map cycleWeight).sum :=
      le_sum_map_of_mem cycleWeight hmem
    have hI2 : (setTaskPhase (spawnStep envCycle t updates "colB" C1).1 tid
        (.awaitingChildren ph)).invocations = C1.invocations := hI
    refine ⟨⟨?_, ?_, ?_, ?_, ?_⟩, ?_⟩
    · show countCol (setTaskPhase (spawnStep envCycle t updates "colB" C1).1 tid
        (.awaitingChildren ph)) "colA" = 1
      rw [countCol_invocations hI2]
      exact h1
    · show countCol (setTaskPhase (spawnStep envCycle t updates "colB" C1).1 tid
          (.awaitingChildren ph)) "colB" +
        (((spawnStep envCycle t updates "colB" C1).1.tasks.map
          (phaseUpdate tid (.awaitingChildren ph))).map pendAWeight).sum ≤ 1
      rw [countCol_invocations hI2, hT]
      unfold pendingA at h2
      omega
    · intro p hp
      rw [show (setTaskPhase (spawnStep envCycle t updates "colB" C1).1 tid
          (.awaitingChildren ph)).tasks =
        ((spawnStep envCycle t updates "colB" C1).1.tasks.map
          (phaseUpdate tid (.awaitingChildren ph))) from rfl, hT] at hp
      obtain ⟨q, hq, hqe⟩ := List.mem_map.mp hp
      obtain ⟨hqr, hqs⟩ := h3 q hq
      rw [← hqe, phaseUpdate_rowId, phaseUpdate_columnId, phaseUpdate_source]
      exact ⟨hqr, hqs⟩
    · show (((spawnStep envCycle t updates "colB" C1).1.tasks.map
          (phaseUpdate tid (.awaitingChildren ph))).map Prod.fst).Nodup
      rw [hT, List.map_map, hcompFst]
      exact h4
    · intro p hp
      rw [show (setTaskPhase (spawnStep envCycle t updates "colB" C1).1 tid
          (.awaitingChildren ph)).tasks =
        ((spawnStep envCycle t updates "colB" C1).1.tasks.map
          (phaseUpdate tid (.awaitingChildren ph))) from rfl, hT] at hp
      obtain ⟨q, hq, hqe⟩ := List.mem_map.mp hp
      have := h5 q hq
      rw [show (setTaskPhase (spawnStep envCycle t updates "colB" C1).1 tid
          (.awaitingChildren ph)).nextId = (spawnStep envCycle t updates "colB" C1).1.nextId
        from rfl, hN]
      rw [← hqe, phaseUpdate_fst]
      exact this
    · show (((spawnStep envCycle t updates "colB" C1).1.tasks.map
          (phaseUpdate tid (.awaitingChildren ph))).map cycleWeight).sum < cycleMeasure C1
      rw [hT]
      unfold cycleMeasure
      omega
  · -- the dependency cascade spawned the colB child
    have hnodupS : ((spawnStep envCycle t updates "colB" C1).1.tasks.map Prod.fst).Nodup := by
      rw [hT, List.map_append, List.nodup_append]
      refine ⟨h4, List.nodup_singleton _, ?_⟩
      intro a ha hb
      rw [List.map_singleton, List.mem_singleton] at hb
      subst hb
      obtain ⟨p, hp, hpk⟩ := List.mem_map.mp ha
      exact Nat.lt_irrefl _ (hpk ▸ h5 p hp)
    have hmemS : (tid, t) ∈ (spawnStep envCycle t updates "colB" C1).1.tasks := by
      rw [hT]
      exact List.mem_append_left _ hmem
    have hupP := sum_map_update pendAWeight (phaseUpdate tid (.awaitingChildren ph)) tid
      hfs hnodupS hmemS
    have hupM := sum_map_update cycleWeight (phaseUpdate tid (.awaitingChildren ph)) tid
      hfs hnodupS hmemS
    rw [phaseUpdate_self] at hupP hupM
    rw [hp1, hp2] at hupP
    rw [hw1, hw2] at hupM
    rw [hT] at hupP hupM
    simp only [List.map_append, List.sum_append, List.map_singleton, List.sum_singleton]
      at hupP hupM
    have hpnew : pendAWeight (C1.nextId,
        { rowId := t.rowId, columnId := "colB", newValue := v
          source := some t.columnId, modeAtStart := C1.state.currentMode
          phase := TaskPhase.awaitingHandler }) = 0 := by
      simp [pendAWeight]
    have hwnew : cycleWeight (C1.nextId,
        { rowId := t.rowId, columnId := "colB", newValue := v
          source := some t.columnId, modeAtStart := C1.state.currentMode
          phase := TaskPhase.awaitingHandler }) = 2 := by
      simp [cycleWeight]
    have htidlt : tid < C1.nextId := h5 (tid, t) hmem
    have hnew : phaseUpdate tid (TaskPhase.awaitingChildren ph)
        (C1.nextId,
          { rowId := t.rowId, columnId := "colB", newValue := v
            source := some t.columnId, modeAtStart := C1.state.currentMode
            phase := TaskPhase.awaitingHandler }) =
        (C1.nextId,
          { rowId := t.rowId, columnId := "colB", newValue := v
            source := some t.columnId, modeAtStart := C1.state.currentMode
            phase := TaskPhase.awaitingHandler }) :=
      phaseUpdate_ne tid _ (by simp; omega)
    rw [hnew] at hupP hupM
    rw [hpnew] at hupP
    rw [hwnew] at hupM
    have hwge : cycleWeight (tid, t) ≤ (C1.tasks.map cycleWeight).sum :=
      le_sum_map_of_mem cycleWeight hmem
    have hpge : pendAWeight (tid, t) ≤ (C1.tasks.map pendAWeight).sum :=
      le_sum_map_of_mem pendAWeight hmem
    refine ⟨⟨?_, ?_, ?_, ?_, ?_⟩, ?_⟩
    · show countCol (setTaskPhase (spawnStep envCycle t updates "colB" C1).1 tid
        (.awaitingChildren ph)) "colA" = 1
      show ((spawnStep envCycle t updates "colB" C1).1.invocations.map
        fun i => if i.columnId = "colA" then 1 else 0).sum = 1
      rw [hI]
      simp only [List.map_append, List.sum_append, List.map_singleton, List.sum_singleton]
      have : countCol C1 "colA" = 1 := h1
      unfold countCol at this
      simp [this]
    · show ((spawnStep envCycle t updates "colB" C1).1.invocations.map
          fun i => if i.columnId = "colB" then 1 else 0).sum +
        (((spawnStep envCycle t updates "colB" C1).1.tasks.map
          (phaseUpdate tid (.awaitingChildren ph))).map pendAWeight).sum ≤ 1
      rw [hI]
      simp only [List.map_append, List.sum_append, List.map_singleton, List.sum_singleton]
      unfold pendingA at h2
      unfold countCol at h2
      rw [hT]
      simp only [List.map_append, List.sum_append, List.map_singleton, List.sum_singleton]
      rw [hnew, hpnew]
      simp only [if_true]
      omega
    · intro p hp
      rw [show (setTaskPhase (spawnStep envCycle t updates "colB" C1).1 tid
          (.awaitingChildren ph)).tasks =
        ((spawnStep envCycle t updates "colB" C1).1.tasks.map
          (phaseUpdate tid (.awaitingChildren ph))) from rfl, hT] at hp
      obtain ⟨q, hq, hqe⟩ := List.mem_map.mp hp
      rw [← hqe, phaseUpdate_rowId, phaseUpdate_columnId, phaseUpdate_source]
      rcases List.mem_append.mp hq with hq2 | hq2
      · exact h3 q hq2
      · rw [List.mem_singleton.mp hq2]
        exact ⟨hrow1, Or.inr ⟨rfl, by rw [hcA]⟩⟩
    · show (((spawnStep envCycle t updates "colB" C1).1.tasks.map
          (phaseUpdate tid (.awaitingChildren ph))).map Prod.fst).Nodup
      rw [List.map_map, hcompFst]
      exact hnodupS
    · intro p hp
      rw [show (setTaskPhase (spawnStep envCycle t updates "colB" C1).1 tid
          (.awaitingChildren ph)).tasks =
        ((spawnStep envCycle t updates "colB" C1).1.tasks.map
          (phaseUpdate tid (.awaitingChildren ph))) from rfl, hT] at hp
      obtain ⟨q, hq, hqe⟩ := List.mem_map.mp hp
      rw [show (setTaskPhase (spawnStep envCycle t updates "colB" C1).1 tid
          (.awaitingChildren ph)).nextId = (spawnStep envCycle t updates "colB" C1).1.nextId
        from rfl, hN]
      rw [← hqe, phaseUpdate_fst]
      rcases List.mem_append.mp hq with hq2 | hq2
      · exact Nat.lt_succ_of_lt (h5 q hq2)
      · rw [List.mem_singleton.mp hq2]
        exact Nat.lt_succ_self _
    · show (((spawnStep envCycle t updates "colB" C1).1.tasks.map
          (phaseUpdate tid (.awaitingChildren ph))).map cycleWeight).sum < cycleMeasure C1
      rw [hT]
      simp only [List.map_append, List.sum_append, List.map_singleton, List.sum_singleton]
      rw [hnew, hwnew]
      unfold cycleMeasure
      omega

theorem cascadeStep_cycleInv {cfg cfg2 : Config} (hstep : CascadeStep envCycle cfg cfg2)
    (hinv : CycleInv cfg) :
    CycleInv cfg2 ∧ cycleMeasure cfg2 < cycleMeasure cfg := by
  cases hstep with
  | ok tid updates h =>
      unfold resolveOk at h
      cases ht : mapGet cfg.tasks tid with
      | none => rw [ht] at h; cases h
      | some t =>
          simp only [ht] at h
          cases hph : t.phase with
          | awaitingChildren ids => rw [hph] at h; simp at h
          | awaitingHandler =>
              rw [hph] at h
              have hmem := mapGet_mem ht
              obtain ⟨hrow1, hshape⟩ := hinv.2.2.1 (tid, t) hmem
              rcases hshape with ⟨hcA, hsrc⟩ | ⟨hcB, hsrc⟩
              · have hcA2 : t.columnId = "colA" := hcA
                have hsrc2 : t.source = none := hsrc
                have hrow2 : t.rowId = "r1" := hrow1
                simp only [hcA2, lookupA_envCycle] at h
                have hfl : List.filter (fun d =>
                    match t.source with
                    | some s => decide (d ≠ s)
                    | none => true) ["colB"] = ["colB"] := by
                  rw [hsrc2]
                  rfl
                rw [hfl, spawnChildren_singleton] at h
                cases h
                exact spawnA_cycleInv t tid updates _ _ hrow2 hcA2 hph hmem hinv
              · have hcB2 : t.columnId = "colB" := hcB
                have hsrc2 : t.source = some "colA" := hsrc
                simp only [hcB2, lookupB_envCycle] at h
                have hfl : List.filter (fun d =>
                    match t.source with
                    | some s => decide (d ≠ s)
                    | none => true) ["colA"] = [] := by
                  rw [hsrc2]
                  rfl
                rw [hfl] at h
                cases h
                exact noSpawnB_cycleInv t tid _ _ hcB2 hph hmem hinv
  | err tid msg h =>
      unfold resolveErr at h
      cases ht : mapGet cfg.tasks tid with
      | none => rw [ht] at h; cases h
      | some t =>
          simp only [ht] at h
          cases hph : t.phase with
          | awaitingChildren ids => rw [hph] at h; simp at h
          | awaitingHandler =>
              rw [hph] at h
              cases h
              have hw : 1 ≤ cycleWeight (tid, t) := by
                unfold cycleWeight
                rw [hph]
                by_cases hc : t.columnId = "colA" <;> simp [hc]
              exact finishTask_cycleInv _ (mapGet_mem ht) hw hinv
  | join tid h =>
      unfold joinChildren at h
      cases ht : mapGet cfg.tasks tid with
      | none => rw [ht] at h; cases h
      | some t =>
          simp only [ht] at h
          cases hph : t.phase with
          | awaitingHandler => rw [hph] at h; simp at h
          | awaitingChildren ids =>
              simp only [hph] at h
              by_cases hall : ids.all (fun i => (mapGet cfg.tasks i).isNone)
              · rw [if_pos hall] at h
                cases h
                have hw : 1 ≤ cycleWeight (tid, t) := by
                  unfold cycleWeight
                  rw [hph]
                exact finishTask_cycleInv cfg.state (mapGet_mem ht) hw hinv
              · rw [if_neg hall] at h
                cases h

/-- C5: in the two-column dependency cycle (colA's handler declares
dependency colB and vice versa), after a single edit to colA every
configuration reachable by cascade-internal steps has logged colA's handler
at most once and colB's handler at most once — colB's recursion filters out
its source column colA — and every further cascade step strictly decreases a
natural-number measure, so the cascade has a bounded total
handler-invocation count and cannot loop forever. -/
theorem two_node_cycle_bounded (cfg : Config)
    (h : CascadeReaches envCycle cfgCycle1 cfg) :
    countCol cfg "colA" ≤ 1 ∧ countCol cfg "colB" ≤ 1 ∧
    ∀ cfg2, CascadeStep envCycle cfg cfg2 → cycleMeasure cfg2 < cycleMeasure cfg := by
  have hinv : CycleInv cfg := by
    induction h with
    | refl =>
        unfold CycleInv
        refine ⟨by decide, ?_, by decide, by decide, by decide⟩
        show countCol cfgCycle1 "colB" + pendingA cfgCycle1 ≤ 1
        decide
    | tail hsteps hstep ih => exact (cascadeStep_cycleInv hstep ih).1
  obtain ⟨h1, h2, h3, h4, h5⟩ := hinv
  exact ⟨Nat.le_of_eq h1, Nat.le_trans (Nat.le_add_right _ _) h2,
    fun cfg2 hstep => (cascadeStep_cycleInv hstep ⟨h1, h2, h3, h4, h5⟩).2⟩

/-- Witness for C5: the conclusion evaluated at the configuration right
after the single colA edit. -/
theorem two_node_cycle_bounded_witness :
    countCol cfgCycle1 "colA" ≤ 1 ∧ countCol cfgCycle1 "colB" ≤ 1 ∧
    ∀ cfg2, CascadeStep envCycle cfgCycle1 cfg2 →
      cycleMeasure cfg2 < cycleMeasure cfgCycle1 :=
  two_node_cycle_bounded cfgCycle1 .refl

end AgGrid
